import Mathlib

/-!
Shallow embedding of `src/python/_google/protobuf/message_factory.py`.

Descriptors live in a fixed environment `Env` and are referred to by their
index.  The mutable world (`FactoryState`) carries the descriptor pool of the
module-level factory, the `_concrete_class` attribute that the message-type
backend stores on each descriptor, and the heap of generated classes (a class
is identified by its allocation index).  Machine recursion is expressed with
explicit fuel; fuel exhaustion is the distinguished error `fuelMsg`, and we
prove below that with fuel `env.descs.length + 1` it never occurs.
-/

/-- A (sub)message field of a message descriptor: `message_type` is `some d`
when the field's value type is the message descriptor with index `d`
(`field.message_type` in the source). -/
structure FieldDescriptor where
  message_type : Option Nat
  deriving DecidableEq, Repr

/-- An extension field descriptor: its field `number`, the index of the
descriptor it extends (`containing_type`), the optional message value type,
and its fully qualified name (the identity of the definition). -/
structure ExtensionDescriptor where
  number : Nat
  containing_type : Nat
  message_type : Option Nat
  full_name : String
  deriving DecidableEq, Repr

/-- A resolved message descriptor: `fields` are its fields, `extensions` the
extension declarations nested in its namespace (`descriptor.extensions`). -/
structure Descriptor where
  name : String
  full_name : String
  fields : List FieldDescriptor
  extensions : List ExtensionDescriptor
  deriving DecidableEq, Repr

/-- A file descriptor (also standing in for a `FileDescriptorProto`): its
name, dependency file names, the indices of its top-level message descriptors
(`message_types_by_name.values()`), and its top-level extension declarations
(`extensions_by_name.values()`). -/
structure FileDescriptorProto where
  name : String
  dependency : List String
  message_type : List Nat
  extension : List ExtensionDescriptor
  deriving DecidableEq, Repr

/-- The fixed universe of resolved message descriptors; a descriptor is
identified by its index in `descs`. -/
structure Env where
  descs : List Descriptor
  deriving DecidableEq, Repr

/-- A generated message class: the descriptor it was built from
(`DESCRIPTOR`), the factory that produced it (the `_FACTORY` tag set by
`CreatePrototype`), and the extensions registered on it.  Classes are
identified by their index in the class heap. -/
structure GeneratedClass where
  DESCRIPTOR : Nat
  FACTORY : Option Nat
  registered : List ExtensionDescriptor
  deriving DecidableEq, Repr

/-- The mutable world: the descriptor pool contents of the (module-level)
factory, the `_concrete_class` attribute of each descriptor (indexed like
`Env.descs`; `none` = attribute absent), and the heap of generated classes. -/
structure FactoryState where
  pool : List FileDescriptorProto
  concrete : List (Option Nat)
  classes : List GeneratedClass
  deriving DecidableEq, Repr

/-- The `_concrete_class` attribute of descriptor `d`
(`getattr(descriptor, '_concrete_class', None)`). -/
def concreteAt (s : FactoryState) (d : Nat) : Option Nat :=
  s.concrete.getD d none

/-- The class stored at heap index `c`, if any. -/
def classAt (s : FactoryState) (c : Nat) : Option GeneratedClass :=
  s.classes[c]?

/-- The error used for fuel exhaustion of the fueled recursion. -/
def fuelMsg : String := "recursion limit"

/-- Modelled from the spec: `RegisterExtension` of the message representation
backend (`python_message`, not part of `src/`): registration is keyed by field
number on the extended class; re-registering an identical definition is a
no-op and a differing definition at the same number is a fatal conflict
(spec 4.3 and the comment at lines 138-141 of the source). -/
def RegisterExtension (cls : Nat) (ext : ExtensionDescriptor) (s : FactoryState) :
    Except String FactoryState :=
  match s.classes[cls]? with
  | none => .error "invalid class"
  | some gc =>
    match gc.registered.find? (fun e => e.number == ext.number) with
    | some e0 => if e0 = ext then .ok s else .error "extension conflict"
    | none =>
      .ok { s with classes :=
              s.classes.set cls { gc with registered := gc.registered ++ [ext] } }

/-- Lines 95-103 of `CreatePrototype`: construct the class object (the
backend's metaclass stores it into the descriptor's `_concrete_class`
attribute, modelled from the spec's in-progress marker of 4.2) and tag it
with the owning factory.  The new class's id is `s.classes.length`. -/
def allocClass (fac d : Nat) (s : FactoryState) : FactoryState :=
  { s with
    classes := s.classes ++ [{ DESCRIPTOR := d, FACTORY := some fac, registered := [] }],
    concrete := s.concrete.set d (some s.classes.length) }

mutual

/-- `MessageFactory.GetPrototype` (lines 63-79): return the class recorded in
the descriptor's `_concrete_class` attribute if present, otherwise build one
with `CreatePrototype`. -/
def MessageFactory.GetPrototype (env : Env) (fac : Nat) (fuel : Nat) (d : Nat)
    (s : FactoryState) : Except String (Nat × FactoryState) :=
  match fuel with
  | 0 => .error fuelMsg
  | f + 1 =>
    match concreteAt s d with
    | some c => .ok (c, s)
    | none => MessageFactory.CreatePrototype env fac f d s
termination_by (fuel, 0, 0)

/-- `MessageFactory.CreatePrototype` (lines 81-112): construct the class (the
backend's metaclass records it in the descriptor's `_concrete_class` attribute
and line 103 tags it with the owning factory), then materialize every
message-typed field and process the extensions declared in the descriptor's
namespace. -/
def MessageFactory.CreatePrototype (env : Env) (fac : Nat) (fuel : Nat) (d : Nat)
    (s : FactoryState) : Except String (Nat × FactoryState) :=
  match env.descs[d]? with
  | none => .error "unknown descriptor"
  | some desc =>
    match MessageFactory.BuildFields env fac fuel desc.fields (allocClass fac d s) with
    | .error e => .error e
    | .ok s2 =>
      match MessageFactory.BuildExtensions env fac fuel desc.extensions s2 with
      | .error e => .error e
      | .ok s3 => .ok (s.classes.length, s3)
termination_by (fuel, 2, 0)

/-- The field loop of `CreatePrototype` (lines 104-106): for every field whose
type is a message, materialize that message type. -/
def MessageFactory.BuildFields (env : Env) (fac : Nat) (fuel : Nat)
    (fields : List FieldDescriptor) (s : FactoryState) : Except String FactoryState :=
  match fields with
  | [] => .ok s
  | f :: rest =>
    match f.message_type with
    | none => MessageFactory.BuildFields env fac fuel rest s
    | some m =>
      match MessageFactory.GetPrototype env fac fuel m s with
      | .error e => .error e
      | .ok (_, s') => MessageFactory.BuildFields env fac fuel rest s'
termination_by (fuel, 1, fields.length)

/-- The extension loop of `CreatePrototype` (lines 107-111), also used
verbatim by `MessageFactory.GetMessages` (lines 143-147): materialize the
extended class, register the extension on it, and materialize the extension's
message value type if it has one. -/
def MessageFactory.BuildExtensions (env : Env) (fac : Nat) (fuel : Nat)
    (exts : List ExtensionDescriptor) (s : FactoryState) : Except String FactoryState :=
  match exts with
  | [] => .ok s
  | e :: rest =>
    match MessageFactory.GetPrototype env fac fuel e.containing_type s with
    | .error err => .error err
    | .ok (cls, s1) =>
      match RegisterExtension cls e s1 with
      | .error err => .error err
      | .ok s2 =>
        match (match e.message_type with
               | some m =>
                 match MessageFactory.GetPrototype env fac fuel m s2 with
                 | .error err => .error err
                 | .ok (_, t) => .ok t
               | none => .ok s2 : Except String FactoryState) with
        | .error err => .error err
        | .ok s3 => MessageFactory.BuildExtensions env fac fuel rest s3
termination_by (fuel, 1, exts.length)

end

/-- Fuel that is always sufficient (proved below): one more than the number of
descriptors in the environment. -/
def defaultFuel (env : Env) : Nat :=
  env.descs.length + 1

/-- `pool.FindFileByName`: modelled from the spec (the descriptor pool is an
external collaborator, spec 6): name lookup failing with an error when the
file is absent. -/
def FindFileByName (pool : List FileDescriptorProto) (name : String) :
    Except String FileDescriptorProto :=
  match pool.find? (fun g => g.name == name) with
  | some f => .ok f
  | none => .error "file not found"

/-- `pool.Add`: modelled from the spec (spec 6: `Add(fileDescriptor)` fails if
a referenced dependency is not already registered, or on a duplicate or
conflicting definition, spec 7). -/
def PoolAdd (pool : List FileDescriptorProto) (fp : FileDescriptorProto) :
    Except String (List FileDescriptorProto) :=
  if fp.dependency.all (fun dn => pool.any (fun g => g.name == dn)) then
    if pool.any (fun g => g.name == fp.name) then .error "duplicate file"
    else .ok (pool ++ [fp])
  else .error "unknown dependency"

/-- The dict-insertion used to build the result mapping (Python dict update:
an existing key keeps its position and gets the new value, a new key is
appended). -/
def insertKV (m : List (String × Nat)) (k : String) (v : Nat) : List (String × Nat) :=
  match m with
  | [] => [(k, v)]
  | (k', v') :: rest => if k' = k then (k, v) :: rest else (k', v') :: insertKV rest k v

/-- Lookup in the result mapping. -/
def lookupKV (m : List (String × Nat)) (k : String) : Option Nat :=
  (m.find? (fun p => p.1 == k)).map (fun p => p.2)

/-- The inner loop of `MessageFactory.GetMessages` (lines 131-132): for every
top-level message of the file, build its class and record it under its fully
qualified name. -/
def MessageFactory.BuildMessages (env : Env) (fac : Nat) (fuel : Nat)
    (msgs : List Nat) (res : List (String × Nat)) (s : FactoryState) :
    Except String (List (String × Nat) × FactoryState) :=
  match msgs with
  | [] => .ok (res, s)
  | d :: rest =>
    match env.descs[d]? with
    | none => .error "unknown descriptor"
    | some desc =>
      match MessageFactory.GetPrototype env fac fuel d s with
      | .error e => .error e
      | .ok (c, s') =>
        MessageFactory.BuildMessages env fac fuel rest (insertKV res desc.full_name c) s'

/-- The file loop of `MessageFactory.GetMessages` (lines 129-147). -/
def MessageFactory.GetMessagesLoop (env : Env) (fac : Nat) (fuel : Nat)
    (files : List String) (res : List (String × Nat)) (s : FactoryState) :
    Except String (List (String × Nat) × FactoryState) :=
  match files with
  | [] => .ok (res, s)
  | fn :: rest =>
    match FindFileByName s.pool fn with
    | .error e => .error e
    | .ok fd =>
      match MessageFactory.BuildMessages env fac fuel fd.message_type res s with
      | .error e => .error e
      | .ok (res', s') =>
        match MessageFactory.BuildExtensions env fac fuel fd.extension s' with
        | .error e => .error e
        | .ok s'' => MessageFactory.GetMessagesLoop env fac fuel rest res' s''

/-- `MessageFactory.GetMessages` (lines 114-148). -/
def MessageFactory.GetMessages (env : Env) (fac : Nat) (files : List String)
    (s : FactoryState) : Except String (List (String × Nat) × FactoryState) :=
  MessageFactory.GetMessagesLoop env fac (defaultFuel env) files [] s

/-- The id of the module-level singleton factory (line 151 of the source). -/
def theFactory : Nat := 0

/-- Building `file_by_name` (line 167): a Python dict comprehension keyed by
file name; a duplicate name keeps its first position and gets the later
value. -/
def insertFile (m : List FileDescriptorProto) (f : FileDescriptorProto) :
    List FileDescriptorProto :=
  match m with
  | [] => [f]
  | g :: rest => if g.name = f.name then f :: rest else g :: insertFile rest f

/-- The `file_by_name` dict for a batch, in insertion order. -/
def fileByName (protos : List FileDescriptorProto) : List FileDescriptorProto :=
  protos.foldl insertFile []

/-- `file_by_name.pop(dep)`: remove and return the entry named `d`. -/
def popName (d : String) : List FileDescriptorProto →
    Option (FileDescriptorProto × List FileDescriptorProto)
  | [] => none
  | g :: rest =>
    if g.name = d then some (g, rest)
    else (popName d rest).map (fun p => (p.1, g :: p.2))

/-- A successful `popName` shrinks the dict by exactly one entry. -/
theorem popName_length (d : String) :
    ∀ (l : List FileDescriptorProto) (g : FileDescriptorProto)
      (l' : List FileDescriptorProto),
      popName d l = some (g, l') → l'.length + 1 = l.length := by
  intro l
  induction l with
  | nil => intro g l' h; simp [popName] at h
  | cons x rest ih =>
    intro g l' h
    simp only [popName] at h
    by_cases hx : x.name = d
    · rw [if_pos hx] at h
      injection h with h'
      have h1 : rest = l' := congrArg Prod.snd h'
      subst h1
      simp
    · rw [if_neg hx] at h
      cases hmap : popName d rest with
      | none => rw [hmap] at h; simp at h
      | some p =>
        rw [hmap] at h
        simp only [Option.map_some'] at h
        injection h with h'
        have h2 : x :: p.2 = l' := congrArg Prod.snd h'
        have hlen := ih p.1 p.2 hmap
        rw [← h2]
        simp only [List.length_cons]
        omega

/-- Size of the recursion stack of `_AddFile` frames, used as the termination
measure of `AddFileRun`. -/
def stackSize : List (List String × FileDescriptorProto) → Nat
  | [] => 0
  | (ds, _) :: ps => ds.length + 1 + stackSize ps

/-- The `_AddFile` recursion together with the `while file_by_name` loop
(lines 168-175), as a machine over the explicit stack of `_AddFile` frames.
A frame `(ds, f)` is an `_AddFile(f)` invocation whose remaining dependency
names are `ds`; when `ds` is exhausted, `pool.Add(f)` runs, which we record by
emitting `f`.  `pending` is the `file_by_name` dict with the most recently
inserted entry first, so `popitem()` is its head.  The returned list is the
exact sequence of files passed to `pool.Add`. -/
def AddFileRun (pending : List FileDescriptorProto)
    (stack : List (List String × FileDescriptorProto)) : List FileDescriptorProto :=
  match stack with
  | [] =>
    match pending with
    | [] => []
    | f :: rest => AddFileRun rest [(f.dependency, f)]
  | ([], f) :: ps => f :: AddFileRun pending ps
  | (dn :: ds, f) :: ps =>
    match h : popName dn pending with
    | none => AddFileRun pending ((ds, f) :: ps)
    | some (g, pending') => AddFileRun pending' ((g.dependency, g) :: (ds, f) :: ps)
termination_by (pending.length, stackSize stack)
decreasing_by
  · simp [stackSize]; omega
  · simp [stackSize]; omega
  · simp [stackSize]; omega
  · have hl := popName_length dn pending g pending' h
    simp [stackSize]; omega

/-- The order in which the module-level `GetMessages` passes the files of a
batch to `pool.Add`. -/
def addOrder (protos : List FileDescriptorProto) : List FileDescriptorProto :=
  AddFileRun (fileByName protos).reverse []

/-- Folding `pool.Add` over a list of files, propagating the first error. -/
def AddAll (files : List FileDescriptorProto) (pool : List FileDescriptorProto) :
    Except String (List FileDescriptorProto) :=
  match files with
  | [] => .ok pool
  | f :: rest =>
    match PoolAdd pool f with
    | .error e => .error e
    | .ok p => AddAll rest p

/-- The module-level `GetMessages` (lines 154-176): insert the batch into the
global factory's pool in `_AddFile` order, then hand the batch's file names to
the global factory's `GetMessages`. -/
def GetMessages (env : Env) (file_protos : List FileDescriptorProto)
    (s : FactoryState) : Except String (List (String × Nat) × FactoryState) :=
  match AddAll (addOrder file_protos) s.pool with
  | .error e => .error e
  | .ok p =>
    MessageFactory.GetMessages env theFactory (file_protos.map (fun fp => fp.name))
      { s with pool := p }

/-- The world before anything is built: empty pool, no `_concrete_class`
attribute on any descriptor, no classes. -/
def initState (env : Env) : FactoryState :=
  { pool := [], concrete := List.replicate env.descs.length none, classes := [] }

/-! Concrete schemas used to exercise the model. -/

/-- A single self-referential message `Node` (its one field has type `Node`). -/
def envNode : Env :=
  { descs := [{ name := "Node", full_name := "Node",
                fields := [{ message_type := some 0 }], extensions := [] }] }

/-- Two mutually recursive messages: `A` (index 0) has a field of type `B`
(index 1) and `B` has a field of type `A`. -/
def envAB : Env :=
  { descs := [{ name := "A", full_name := "A",
                fields := [{ message_type := some 1 }], extensions := [] },
              { name := "B", full_name := "B",
                fields := [{ message_type := some 0 }], extensions := [] }] }

/-- One message `M` (index 0) with no fields. -/
def envM : Env :=
  { descs := [{ name := "M", full_name := "M", fields := [], extensions := [] }] }

/-- Message `A` (index 0) with fields of types `B` (index 1) and `C`
(index 2); `B` has a field of type `A`; `C` has no fields. -/
def envABC : Env :=
  { descs := [{ name := "A", full_name := "A",
                fields := [{ message_type := some 1 }, { message_type := some 2 }],
                extensions := [] },
              { name := "B", full_name := "B",
                fields := [{ message_type := some 0 }], extensions := [] },
              { name := "C", full_name := "C", fields := [], extensions := [] }] }

/-- Messages `pkg.M1` (index 0, one field of type `pkg.M2`) and `pkg.M2`
(index 1), declared in files `F1` and `F2` respectively, `F1` depending on
`F2`. -/
def envM1M2 : Env :=
  { descs := [{ name := "M1", full_name := "pkg.M1",
                fields := [{ message_type := some 1 }], extensions := [] },
              { name := "M2", full_name := "pkg.M2", fields := [], extensions := [] }] }

/-- The file declaring `pkg.M1`, depending on `F2`. -/
def fileF1 : FileDescriptorProto :=
  { name := "F1", dependency := ["F2"], message_type := [0], extension := [] }

/-- The file declaring `pkg.M2`. -/
def fileF2 : FileDescriptorProto :=
  { name := "F2", dependency := [], message_type := [1], extension := [] }

/-- Well-formedness of a state for an environment: the `_concrete_class`
attribute slots cover every descriptor. -/
def WF (env : Env) (s : FactoryState) : Prop :=
  env.descs.length ≤ s.concrete.length

/-- The number of descriptors whose `_concrete_class` attribute is still
absent; the measure that shrinks at every `CreatePrototype`. -/
def unset (s : FactoryState) : Nat :=
  s.concrete.countP (fun o => o.isNone)

/-- How one world state extends another along any run of the factory
performed on behalf of factory `fac`: the pool is untouched, `_concrete_class`
attributes are only added and never changed, classes keep their descriptor,
factory tag and registered extensions (possibly gaining more), and every class
allocated along the way is tagged with `fac`. -/
structure StateLE (fac : Nat) (s s' : FactoryState) : Prop where
  pool : s'.pool = s.pool
  clen : s'.concrete.length = s.concrete.length
  conc : ∀ (i v : Nat), concreteAt s i = some v → concreteAt s' i = some v
  cls : ∀ (c : Nat) (gc : GeneratedClass), s.classes[c]? = some gc →
      ∃ gc' : GeneratedClass, s'.classes[c]? = some gc' ∧
      gc'.DESCRIPTOR = gc.DESCRIPTOR ∧ gc'.FACTORY = gc.FACTORY ∧
      ∀ e, e ∈ gc.registered → e ∈ gc'.registered
  clslen : s.classes.length ≤ s'.classes.length
  fresh : ∀ (c : Nat) (gc : GeneratedClass), s.classes.length ≤ c →
      s'.classes[c]? = some gc → gc.FACTORY = some fac

/-- The claim C5 notion of a fully built class: it exists, its factory tag is
set, every message-typed field of its descriptor has a materialized class, and
every extension declared in its descriptor's namespace has a materialized
value type and is registered on the class it extends. -/
def fullyBuilt (env : Env) (s : FactoryState) (c : Nat) : Bool :=
  match s.classes[c]? with
  | none => false
  | some gc =>
    match env.descs[gc.DESCRIPTOR]? with
    | none => false
    | some desc =>
      gc.FACTORY.isSome &&
      desc.fields.all (fun f =>
        match f.message_type with
        | some m => (concreteAt s m).isSome
        | none => true) &&
      desc.extensions.all (fun e =>
        (match e.message_type with
         | some m => (concreteAt s m).isSome
         | none => true) &&
        (match concreteAt s e.containing_type with
         | none => false
         | some tc =>
           match s.classes[tc]? with
           | none => false
           | some host => host.registered.contains e))

/-- A state with no build in progress: every class recorded in a descriptor's
`_concrete_class` attribute is fully built. -/
def coherent (env : Env) (s : FactoryState) : Prop :=
  ∀ d c, concreteAt s d = some c → fullyBuilt env s c = true

/-- Every recorded class is fully built except possibly those of the
descriptors in `P` (the builds in progress). -/
def builtExcept (env : Env) (P : List Nat) (s : FactoryState) : Prop :=
  ∀ d c, concreteAt s d = some c → d ∈ P ∨ fullyBuilt env s c = true

/-- The names of a list of files. -/
def fileNames (batch : List FileDescriptorProto) : List String :=
  batch.map (fun f => f.name)

/-- The ordering property claim C3 asserts of the module-level batch: every
file reaches `pool.Add` only after all of its dependencies that occur in the
same batch. -/
def DepsFirst (batch : List FileDescriptorProto) : Prop :=
  ∀ xs f ys, addOrder batch = xs ++ f :: ys →
    ∀ dn ∈ f.dependency, dn ∈ fileNames batch → dn ∈ fileNames xs

/-- Invariant of the `_AddFile` frame stack: reading the stack top-first with
`above` the names of the frames already passed, each frame `(ds, f)` has
scanned the prefix of `f.dependency` before `ds`, and every scanned
dependency name that belongs to the batch is either already added (`D`) or
the name of a frame above (still being built, reached through a cycle). -/
def FramesOK (N D : List String) : List String → List (List String × FileDescriptorProto) → Prop
  | _, [] => True
  | above, (ds, f) :: ps =>
      (∃ pre, f.dependency = pre ++ ds ∧
        ∀ dn ∈ pre, dn ∈ N → dn ∈ D ∨ dn ∈ above) ∧
      FramesOK N D (f.name :: above) ps

/-- The fully qualified names of the top-level message types declared directly
in the given files (as found in the pool). -/
def topLevelNames (env : Env) (pool : List FileDescriptorProto)
    (files : List String) : List String :=
  files.flatMap (fun fn =>
    match FindFileByName pool fn with
    | .ok fd => fd.message_type.filterMap
        (fun d => (env.descs[d]?).map (fun desc => desc.full_name))
    | .error _ => [])

/-- An extension of `M` at field number 100. -/
def ext100A : ExtensionDescriptor :=
  { number := 100, containing_type := 0, message_type := none, full_name := "pkg.extA" }

/-- A different extension definition at the same field number 100. -/
def ext100B : ExtensionDescriptor :=
  { number := 100, containing_type := 0, message_type := none, full_name := "pkg.extB" }

/-- A state whose only class (for descriptor 0) has `ext100A` registered. -/
def stExt : FactoryState :=
  { pool := [], concrete := [some 0],
    classes := [{ DESCRIPTOR := 0, FACTORY := some 0, registered := [ext100A] }] }

/-- Two files that depend on each other. -/
def fileCycA : FileDescriptorProto :=
  { name := "cycA", dependency := ["cycB"], message_type := [], extension := [] }

/-- The second file of the mutual-dependency pair. -/
def fileCycB : FileDescriptorProto :=
  { name := "cycB", dependency := ["cycA"], message_type := [], extension := [] }

/-- The mapping produced by the module-level batch `[F1, F2]` from the empty
initial world. -/
def mapFwd : List (String × Nat) := [("pkg.M1", 0), ("pkg.M2", 1)]

/-- The world after the module-level batch `[F1, F2]` from the empty initial
world. -/
def stateFwd : FactoryState :=
  { pool := [fileF2, fileF1], concrete := [some 0, some 1],
    classes := [{ DESCRIPTOR := 0, FACTORY := some 0, registered := [] },
                { DESCRIPTOR := 1, FACTORY := some 0, registered := [] }] }

/-- The mapping produced by the permuted batch `[F2, F1]` from the empty
initial world. -/
def mapRev : List (String × Nat) := [("pkg.M2", 0), ("pkg.M1", 1)]

/-- The world after the permuted batch `[F2, F1]` from the empty initial
world. -/
def stateRev : FactoryState :=
  { pool := [fileF2, fileF1], concrete := [some 1, some 0],
    classes := [{ DESCRIPTOR := 1, FACTORY := some 0, registered := [] },
                { DESCRIPTOR := 0, FACTORY := some 0, registered := [] }] }


/-! Basic properties of the state-extension order. -/

/-- A list index holding a value is in range. -/
theorem getElem?_some_lt {α : Type} {l : List α} {i : Nat} {a : α}
    (h : l[i]? = some a) : i < l.length := by
  by_contra hc
  rw [List.getElem?_eq_none (Nat.le_of_not_lt hc)] at h
  cases h

/-- State extension is reflexive. -/
theorem StateLE.rfl (fac : Nat) (s : FactoryState) : StateLE fac s s := by
  refine ⟨Eq.refl _, Eq.refl _, ?_, ?_, Nat.le_refl _, ?_⟩
  · intro i v h; exact h
  · intro c gc h; exact ⟨gc, h, Eq.refl _, Eq.refl _, fun e he => he⟩
  · intro c gc hle h
    have := getElem?_some_lt h
    omega

/-- State extension is transitive (for one factory). -/
theorem StateLE.trans {fac : Nat} {s1 s2 s3 : FactoryState}
    (h12 : StateLE fac s1 s2) (h23 : StateLE fac s2 s3) : StateLE fac s1 s3 := by
  refine ⟨h23.pool.trans h12.pool, h23.clen.trans h12.clen, ?_, ?_,
      Nat.le_trans h12.clslen h23.clslen, ?_⟩
  · intro i v h; exact h23.conc i v (h12.conc i v h)
  · intro c gc h
    obtain ⟨gc2, h2, hd2, hf2, hr2⟩ := h12.cls c gc h
    obtain ⟨gc3, h3, hd3, hf3, hr3⟩ := h23.cls c gc2 h2
    exact ⟨gc3, h3, hd3.trans hd2, hf3.trans hf2, fun e he => hr3 e (hr2 e he)⟩
  · intro c gc hle h
    by_cases hc : c < s2.classes.length
    · have hg2' := List.getElem?_eq_getElem hc
      obtain ⟨gc3, h3, _, hf3, _⟩ := h23.cls c _ hg2'
      have hgg : gc3 = gc := by
        rw [h] at h3
        exact (Option.some_inj.1 h3).symm
      rw [← hgg, hf3]
      exact h12.fresh c _ hle hg2'
    · exact h23.fresh c gc (Nat.le_of_not_lt hc) h

/-- A recorded `_concrete_class` value never changes along a run. -/
theorem StateLE.conc_stable {fac : Nat} {s s' : FactoryState}
    (h : StateLE fac s s') {i : Nat} {v v' : Nat}
    (hv : concreteAt s i = some v) (hv' : concreteAt s' i = some v') : v = v' := by
  have := h.conc i v hv
  rw [this] at hv'
  exact Option.some_inj.1 hv'

/-- `RegisterExtension` only ever appends to the registered list of one
existing class. -/
theorem RegisterExtension_le (fac : Nat) (cls : Nat) (ext : ExtensionDescriptor)
    {s s' : FactoryState} (h : RegisterExtension cls ext s = .ok s') :
    StateLE fac s s' := by
  unfold RegisterExtension at h
  split at h
  · cases h
  next gc hcls =>
    split at h
    next e0 hfind =>
      split at h
      · cases h
        exact StateLE.rfl fac _
      · cases h
    next hfind =>
      cases h
      have hlt : cls < s.classes.length := getElem?_some_lt hcls
      refine ⟨Eq.refl _, Eq.refl _, fun i v hv => hv, ?_, by simp, ?_⟩
      · intro c gc0 hg
        by_cases hceq : c = cls
        · subst hceq
          rw [hcls] at hg
          cases Option.some_inj.1 hg
          refine ⟨{ gc with registered := gc.registered ++ [ext] }, ?_, Eq.refl _,
            Eq.refl _, ?_⟩
          · rw [List.getElem?_set_self hlt]
          · intro e he
            simp only [List.mem_append]
            exact Or.inl he
        · refine ⟨gc0, ?_, Eq.refl _, Eq.refl _, fun e he => he⟩
          rw [List.getElem?_set_ne (fun he => hceq he.symm)]
          exact hg
      · intro c gc0 hle hg
        have := getElem?_some_lt hg
        simp at this
        omega

/-- The `_concrete_class` attribute set by `allocClass` (descriptor in
range). -/
theorem allocClass_concrete {s : FactoryState} {d : Nat} (fac : Nat)
    (hd : d < s.concrete.length) :
    concreteAt (allocClass fac d s) d = some s.classes.length := by
  unfold allocClass concreteAt
  simp [List.getElem?_set_self hd]

/-- `allocClass` leaves other descriptors' attributes alone. -/
theorem allocClass_concrete_ne {s : FactoryState} {d i : Nat} (fac : Nat)
    (hne : d ≠ i) : concreteAt (allocClass fac d s) i = concreteAt s i := by
  unfold allocClass concreteAt
  simp [List.getElem?_set_ne hne]

/-- The class object `allocClass` appends. -/
theorem allocClass_class (fac d : Nat) (s : FactoryState) :
    (allocClass fac d s).classes[s.classes.length]? =
      some { DESCRIPTOR := d, FACTORY := some fac, registered := [] } := by
  unfold allocClass
  simp [List.getElem?_concat_length]

/-- `allocClass` is a state extension when the descriptor was unset. -/
theorem allocClass_le {s : FactoryState} {d : Nat} (fac : Nat)
    (h0 : concreteAt s d = none) (hd : d < s.concrete.length) :
    StateLE fac s (allocClass fac d s) := by
  refine ⟨Eq.refl _, by simp [allocClass], ?_, ?_, by simp [allocClass], ?_⟩
  · intro i v hv
    by_cases hne : d = i
    · subst hne; rw [h0] at hv; cases hv
    · rw [allocClass_concrete_ne fac hne]; exact hv
  · intro c gc hg
    refine ⟨gc, ?_, Eq.refl _, Eq.refl _, fun e he => he⟩
    unfold allocClass
    simp only
    rw [List.getElem?_append_left (getElem?_some_lt hg)]
    exact hg
  · intro c gc hle hg
    unfold allocClass at hg
    simp only at hg
    by_cases hce : c = s.classes.length
    · subst hce
      rw [List.getElem?_concat_length] at hg
      cases Option.some_inj.1 hg
      exact Eq.refl _
    · have hlen : c < s.classes.length + 1 := by
        have := getElem?_some_lt hg
        simpa using this
      omega

/-- Well-formedness is preserved along state extension. -/
theorem WF.mono {env : Env} {fac : Nat} {s s' : FactoryState}
    (hwf : WF env s) (h : StateLE fac s s') : WF env s' := by
  unfold WF at *
  rw [h.clen]
  exact hwf

/-- The field loop is a state extension, given that `GetPrototype` is at the
same fuel. -/
theorem BuildFields_le {fuel : Nat} {env : Env} {fac : Nat}
    (hg : ∀ d s c s', WF env s →
      MessageFactory.GetPrototype env fac fuel d s = .ok (c, s') → StateLE fac s s') :
    ∀ fields s s', WF env s →
      MessageFactory.BuildFields env fac fuel fields s = .ok s' → StateLE fac s s' := by
  intro fields
  induction fields with
  | nil =>
    intro s s' hwf h
    rw [MessageFactory.BuildFields] at h
    cases Except.ok.inj h
    exact StateLE.rfl fac s
  | cons f rest ih =>
    intro s s' hwf h
    rw [MessageFactory.BuildFields] at h
    split at h
    · exact ih s s' hwf h
    · split at h
      · cases h
      next c1 s1 hg1 =>
        have h1 := hg _ s c1 s1 hwf hg1
        exact StateLE.trans h1 (ih s1 s' (hwf.mono h1) h)

/-- The extension loop is a state extension, given `GetPrototype` at the same
fuel. -/
theorem BuildExtensions_le {fuel : Nat} {env : Env} {fac : Nat}
    (hg : ∀ d s c s', WF env s →
      MessageFactory.GetPrototype env fac fuel d s = .ok (c, s') → StateLE fac s s') :
    ∀ exts s s', WF env s →
      MessageFactory.BuildExtensions env fac fuel exts s = .ok s' → StateLE fac s s' := by
  intro exts
  induction exts with
  | nil =>
    intro s s' hwf h
    rw [MessageFactory.BuildExtensions] at h
    cases Except.ok.inj h
    exact StateLE.rfl fac s
  | cons e rest ih =>
    intro s s' hwf h
    rw [MessageFactory.BuildExtensions] at h
    split at h
    · cases h
    next cls s1 hg1 =>
      have h1 := hg _ s cls s1 hwf hg1
      split at h
      · cases h
      next s2 hreg =>
        have h2 := RegisterExtension_le fac cls e hreg
        split at h
        · cases h
        next s3 hopt =>
          have h3 : StateLE fac s2 s3 := by
            split at hopt
            next m hm =>
              split at hopt
              · cases hopt
              next c4 s4 hg4 =>
                cases Except.ok.inj hopt
                exact hg _ s2 c4 s3 ((hwf.mono h1).mono h2) hg4
            next hm =>
              cases Except.ok.inj hopt
              exact StateLE.rfl fac s2
          have h123 := (h1.trans h2).trans h3
          exact StateLE.trans h123 (ih s3 s' (hwf.mono h123) h)

/-- `CreatePrototype` is a state extension when the descriptor was unset,
given the loops at the same fuel. -/
theorem CreatePrototype_le {fuel : Nat} {env : Env} {fac : Nat}
    (hf : ∀ fields s s', WF env s →
      MessageFactory.BuildFields env fac fuel fields s = .ok s' → StateLE fac s s')
    (he : ∀ exts s s', WF env s →
      MessageFactory.BuildExtensions env fac fuel exts s = .ok s' → StateLE fac s s') :
    ∀ d s c s', WF env s → concreteAt s d = none →
      MessageFactory.CreatePrototype env fac fuel d s = .ok (c, s') → StateLE fac s s' := by
  intro d s c s' hwf h0 h
  rw [MessageFactory.CreatePrototype] at h
  split at h
  · cases h
  next desc hdesc =>
    have hd : d < env.descs.length := getElem?_some_lt hdesc
    have hd' : d < s.concrete.length := Nat.lt_of_lt_of_le hd hwf
    have hle1 := allocClass_le fac h0 hd'
    split at h
    · cases h
    next s2 hfields =>
      have h2 := hf desc.fields _ s2 (hwf.mono hle1) hfields
      split at h
      · cases h
      next s3 hexts =>
        have h3 := he desc.extensions s2 s3 ((hwf.mono hle1).mono h2) hexts
        cases Except.ok.inj h
        exact (hle1.trans h2).trans h3

/-- `GetPrototype` at positive fuel is a state extension, given
`CreatePrototype` at the predecessor fuel. -/
theorem GetPrototype_le_succ {f : Nat} {env : Env} {fac : Nat}
    (hc : ∀ d s c s', WF env s → concreteAt s d = none →
      MessageFactory.CreatePrototype env fac f d s = .ok (c, s') → StateLE fac s s') :
    ∀ d s c s', WF env s →
      MessageFactory.GetPrototype env fac (f + 1) d s = .ok (c, s') → StateLE fac s s' := by
  intro d s c s' hwf h
  rw [MessageFactory.GetPrototype] at h
  split at h
  next c0 hc0 =>
    cases Except.ok.inj h
    exact StateLE.rfl fac s
  next h0 =>
    exact hc d s c s' hwf h0 h

/-- Monotonicity of the whole recursive builder: a successful run only
extends the state. -/
theorem buildMono : ∀ (fuel : Nat) (env : Env) (fac : Nat),
    (∀ d s c s', WF env s →
      MessageFactory.GetPrototype env fac fuel d s = .ok (c, s') → StateLE fac s s') ∧
    (∀ fields s s', WF env s →
      MessageFactory.BuildFields env fac fuel fields s = .ok s' → StateLE fac s s') ∧
    (∀ exts s s', WF env s →
      MessageFactory.BuildExtensions env fac fuel exts s = .ok s' → StateLE fac s s') ∧
    (∀ d s c s', WF env s → concreteAt s d = none →
      MessageFactory.CreatePrototype env fac fuel d s = .ok (c, s') → StateLE fac s s') := by
  intro fuel
  induction fuel with
  | zero =>
    intro env fac
    have hg : ∀ d s c s', WF env s →
        MessageFactory.GetPrototype env fac 0 d s = .ok (c, s') → StateLE fac s s' := by
      intro d s c s' _ h
      rw [MessageFactory.GetPrototype] at h
      cases h
    refine ⟨hg, BuildFields_le hg, BuildExtensions_le hg, ?_⟩
    exact CreatePrototype_le (BuildFields_le hg) (BuildExtensions_le hg)
  | succ f ih =>
    intro env fac
    have hg := GetPrototype_le_succ (ih env fac).2.2.2
    refine ⟨hg, BuildFields_le hg, BuildExtensions_le hg, ?_⟩
    exact CreatePrototype_le (BuildFields_le hg) (BuildExtensions_le hg)

/-- Convenient accessor: `GetPrototype` only extends the state. -/
theorem GetPrototype_le {env : Env} {fac fuel d : Nat} {s : FactoryState}
    {c : Nat} {s' : FactoryState} (hwf : WF env s)
    (h : MessageFactory.GetPrototype env fac fuel d s = .ok (c, s')) :
    StateLE fac s s' :=
  (buildMono fuel env fac).1 d s c s' hwf h

/-- What a successful `CreatePrototype` guarantees about the returned class:
it is the freshly allocated one, the descriptor's `_concrete_class` attribute
now records it, and it is tagged with the owning factory. -/
theorem CreatePrototype_spec {env : Env} {fac fuel d : Nat} {s : FactoryState}
    {c : Nat} {s' : FactoryState} (hwf : WF env s) (h0 : concreteAt s d = none)
    (h : MessageFactory.CreatePrototype env fac fuel d s = .ok (c, s')) :
    c = s.classes.length ∧ concreteAt s' d = some c ∧
    ∃ gc : GeneratedClass, s'.classes[c]? = some gc ∧
      gc.DESCRIPTOR = d ∧ gc.FACTORY = some fac := by
  rw [MessageFactory.CreatePrototype] at h
  split at h
  · cases h
  next desc hdesc =>
    have hd' : d < s.concrete.length := Nat.lt_of_lt_of_le (getElem?_some_lt hdesc) hwf
    split at h
    · cases h
    next s2 hfields =>
      split at h
      · cases h
      next s3 hexts =>
        cases Except.ok.inj h
        have hle1 := allocClass_le fac h0 hd'
        have hwf1 := hwf.mono hle1
        have h2 := (buildMono fuel env fac).2.1 desc.fields _ s2 hwf1 hfields
        have h3 := (buildMono fuel env fac).2.2.1 desc.extensions s2 _ (hwf1.mono h2) hexts
        have h23 := StateLE.trans h2 h3
        refine ⟨Eq.refl _, ?_, ?_⟩
        · exact h23.conc d _ (allocClass_concrete fac hd')
        · obtain ⟨gc', hg', hdd, hff, _⟩ := h23.cls s.classes.length _ (allocClass_class fac d s)
          exact ⟨gc', hg', by rw [hdd], by rw [hff]⟩

/-- After a successful `GetPrototype`, the descriptor's `_concrete_class`
attribute records the returned class. -/
theorem GetPrototype_concrete {env : Env} {fac fuel d : Nat} {s : FactoryState}
    {c : Nat} {s' : FactoryState} (hwf : WF env s)
    (h : MessageFactory.GetPrototype env fac fuel d s = .ok (c, s')) :
    concreteAt s' d = some c := by
  cases fuel with
  | zero => rw [MessageFactory.GetPrototype] at h; cases h
  | succ f =>
    rw [MessageFactory.GetPrototype] at h
    split at h
    next c0 hc0 =>
      cases Except.ok.inj h
      exact hc0
    next h0 => exact (CreatePrototype_spec hwf h0 h).2.1

/-- C1: for any descriptor `d` and factory `fac`, a second `GetPrototype`
call right after a successful one returns exactly the class object the first
call returned, with the state unchanged — no new type is constructed. -/
theorem C1_GetPrototype_idempotent {env : Env} {fac fuel d : Nat}
    {s : FactoryState} {c : Nat} {s1 : FactoryState} (hwf : WF env s)
    (h : MessageFactory.GetPrototype env fac fuel d s = .ok (c, s1)) :
    MessageFactory.GetPrototype env fac fuel d s1 = .ok (c, s1) := by
  have hc := GetPrototype_concrete hwf h
  cases fuel with
  | zero => rw [MessageFactory.GetPrototype] at h; cases h
  | succ f => rw [MessageFactory.GetPrototype, hc]

/-- Witness for C1 at the self-referential `Node` schema. -/
theorem C1_witness :
    MessageFactory.GetPrototype envNode 0 2 0
      { pool := [], concrete := [some 0],
        classes := [{ DESCRIPTOR := 0, FACTORY := some 0, registered := [] }] } =
    .ok (0, { pool := [], concrete := [some 0],
              classes := [{ DESCRIPTOR := 0, FACTORY := some 0, registered := [] }] }) :=
  @C1_GetPrototype_idempotent envNode 0 2 0 (initState envNode) 0
    { pool := [], concrete := [some 0],
      classes := [{ DESCRIPTOR := 0, FACTORY := some 0, registered := [] }] }
    (by simp [WF, initState, envNode])
    (by simp [MessageFactory.GetPrototype, MessageFactory.CreatePrototype,
          MessageFactory.BuildFields, MessageFactory.BuildExtensions, allocClass,
          initState, envNode, concreteAt])

/-- C4 counterexample: the cache is not owned by one factory.  Factory 1
builds the class for descriptor `M`; a distinct fresh factory 2 calling
`GetPrototype` on the same descriptor does not build its own new type: it
returns factory 1's cached class (still tagged `FACTORY = 1`) and leaves the
world unchanged. -/
theorem C4_counterexample :
    MessageFactory.GetPrototype envM 1 2 0 (initState envM) =
      .ok (0, { pool := [], concrete := [some 0],
                classes := [{ DESCRIPTOR := 0, FACTORY := some 1, registered := [] }] }) ∧
    MessageFactory.GetPrototype envM 2 2 0
        { pool := [], concrete := [some 0],
          classes := [{ DESCRIPTOR := 0, FACTORY := some 1, registered := [] }] } =
      .ok (0, { pool := [], concrete := [some 0],
                classes := [{ DESCRIPTOR := 0, FACTORY := some 1, registered := [] }] }) := by
  constructor
  · simp [MessageFactory.GetPrototype, MessageFactory.CreatePrototype,
      MessageFactory.BuildFields, MessageFactory.BuildExtensions, allocClass,
      initState, envM, concreteAt]
  · simp [MessageFactory.GetPrototype, concreteAt]

/-- C4 amended: the `_concrete_class` back-reference lives on the descriptor
and is shared by every factory: once descriptor `d` is built through factory
`fac1`, `GetPrototype` through any factory `fac2` returns that same cached
class with no construction at all. -/
theorem C4_cache_shared {env : Env} {fac1 fuel d : Nat} {s : FactoryState}
    {c : Nat} {s1 : FactoryState} (hwf : WF env s)
    (h : MessageFactory.GetPrototype env fac1 fuel d s = .ok (c, s1))
    (fac2 fuel2 : Nat) (hf2 : fuel2 ≠ 0) :
    MessageFactory.GetPrototype env fac2 fuel2 d s1 = .ok (c, s1) := by
  have hc := GetPrototype_concrete hwf h
  cases fuel2 with
  | zero => exact absurd (Eq.refl 0) hf2
  | succ f2 => rw [MessageFactory.GetPrototype, hc]

/-- Witness for the amended C4: factory 2 sees factory 1's class. -/
theorem C4_witness :
    MessageFactory.GetPrototype envM 2 1 0
      { pool := [], concrete := [some 0],
        classes := [{ DESCRIPTOR := 0, FACTORY := some 1, registered := [] }] } =
    .ok (0, { pool := [], concrete := [some 0],
              classes := [{ DESCRIPTOR := 0, FACTORY := some 1, registered := [] }] }) :=
  @C4_cache_shared envM 1 2 0 (initState envM) 0
    { pool := [], concrete := [some 0],
      classes := [{ DESCRIPTOR := 0, FACTORY := some 1, registered := [] }] }
    (by simp [WF, initState, envM])
    (by simp [MessageFactory.GetPrototype, MessageFactory.CreatePrototype,
          MessageFactory.BuildFields, MessageFactory.BuildExtensions, allocClass,
          initState, envM, concreteAt])
    2 1 (by simp)

/-! Fuel adequacy: the recursion-limit error never fires with enough fuel. -/

/-- Pointwise preservation of set entries bounds the count of unset ones. -/
theorem countP_isNone_le :
    ∀ (l l' : List (Option Nat)), l.length = l'.length →
      (∀ (i v : Nat), l.getD i none = some v → l'.getD i none = some v) →
      l'.countP (fun o => o.isNone) ≤ l.countP (fun o => o.isNone) := by
  intro l
  induction l with
  | nil =>
    intro l' hlen _
    cases l' with
    | nil => exact Nat.le_refl _
    | cons a t => cases hlen
  | cons a t ih =>
    intro l' hlen hp
    cases l' with
    | nil => cases hlen
    | cons a' t' =>
      have htail := ih t' (by simpa using hlen)
        (fun i v hv => by
          have := hp (i + 1) v (by simpa using hv)
          simpa using this)
      cases a with
      | none =>
        simp only [List.countP_cons]
        by_cases ha' : a'.isNone = true <;> simp [ha'] <;> omega
      | some v =>
        have ha' : a' = some v := hp 0 v (by simp)
        subst ha'
        simp only [List.countP_cons]
        simp
        omega

/-- Along a state extension the number of unset descriptors never grows. -/
theorem unset_le {fac : Nat} {s s' : FactoryState} (h : StateLE fac s s') :
    unset s' ≤ unset s :=
  countP_isNone_le s.concrete s'.concrete h.clen.symm h.conc

/-- An unset in-range descriptor contributes to `unset`. -/
theorem unset_pos {s : FactoryState} {d : Nat} (hd : d < s.concrete.length)
    (h0 : concreteAt s d = none) : 1 ≤ unset s := by
  have hnone : s.concrete[d] = none := by
    unfold concreteAt at h0
    rw [List.getD_eq_getElem?_getD, List.getElem?_eq_getElem hd] at h0
    simpa using h0
  have hmem : s.concrete[d] ∈ s.concrete := List.getElem_mem hd
  unfold unset
  rw [Nat.succ_le, List.countP_pos_iff]
  exact ⟨s.concrete[d], hmem, by rw [hnone]; simp⟩

/-- Allocation consumes exactly one unset descriptor. -/
theorem unset_alloc {s : FactoryState} {d : Nat} (fac : Nat)
    (h0 : concreteAt s d = none) (hd : d < s.concrete.length) :
    unset (allocClass fac d s) + 1 = unset s := by
  have hnone : s.concrete[d] = none := by
    unfold concreteAt at h0
    rw [List.getD_eq_getElem?_getD, List.getElem?_eq_getElem hd] at h0
    simpa using h0
  have hsplit : s.concrete = s.concrete.take d ++ s.concrete[d] :: s.concrete.drop (d + 1) := by
    rw [List.getElem_cons_drop]
    exact (List.take_append_drop d s.concrete).symm
  have hset : s.concrete.set d (some s.classes.length) =
      s.concrete.take d ++ some s.classes.length :: s.concrete.drop (d + 1) :=
    List.set_eq_take_cons_drop _ hd
  unfold unset allocClass
  simp only
  rw [hset]
  conv_rhs => rw [hsplit]
  rw [List.countP_append, List.countP_append, List.countP_cons, List.countP_cons, hnone]
  simp
  omega

/-- No recursion-limit error from the field loop, given the same for
`GetPrototype` at the same fuel. -/
theorem BuildFields_noFuel {fuel : Nat} {env : Env} {fac : Nat}
    (hg : ∀ d s, WF env s → unset s < fuel →
      MessageFactory.GetPrototype env fac fuel d s ≠ .error fuelMsg) :
    ∀ fields s, WF env s → unset s < fuel →
      MessageFactory.BuildFields env fac fuel fields s ≠ .error fuelMsg := by
  intro fields
  induction fields with
  | nil =>
    intro s _ _ h
    rw [MessageFactory.BuildFields] at h
    exact Except.noConfusion h
  | cons f rest ih =>
    intro s hwf hu h
    rw [MessageFactory.BuildFields] at h
    split at h
    · exact ih s hwf hu h
    · split at h
      next e hg1 =>
        cases Except.error.inj h
        exact hg _ s hwf hu hg1
      next c1 s1 hg1 =>
        have hle := GetPrototype_le hwf hg1
        exact ih s1 (hwf.mono hle) (Nat.lt_of_le_of_lt (unset_le hle) hu) h

/-- No recursion-limit error from the extension loop, given the same for
`GetPrototype` at the same fuel. -/
theorem BuildExtensions_noFuel {fuel : Nat} {env : Env} {fac : Nat}
    (hg : ∀ d s, WF env s → unset s < fuel →
      MessageFactory.GetPrototype env fac fuel d s ≠ .error fuelMsg) :
    ∀ exts s, WF env s → unset s < fuel →
      MessageFactory.BuildExtensions env fac fuel exts s ≠ .error fuelMsg := by
  intro exts
  induction exts with
  | nil =>
    intro s _ _ h
    rw [MessageFactory.BuildExtensions] at h
    exact Except.noConfusion h
  | cons e rest ih =>
    intro s hwf hu h
    rw [MessageFactory.BuildExtensions] at h
    split at h
    next err hg1 =>
      cases Except.error.inj h
      exact hg _ s hwf hu hg1
    next cls s1 hg1 =>
      have hle1 := GetPrototype_le hwf hg1
      split at h
      next err hreg =>
        cases Except.error.inj h
        unfold RegisterExtension at hreg
        split at hreg
        · simp [fuelMsg] at hreg
        · split at hreg
          · split at hreg
            · cases hreg
            · simp [fuelMsg] at hreg
          · cases hreg
      next s2 hreg =>
        have hle2 := RegisterExtension_le fac cls e hreg
        have hle12 := StateLE.trans hle1 hle2
        split at h
        next err hopt =>
          cases Except.error.inj h
          split at hopt
          next m hm =>
            split at hopt
            next e2 hg2 =>
              cases Except.error.inj hopt
              exact hg _ s2 (hwf.mono hle12)
                (Nat.lt_of_le_of_lt (unset_le hle12) hu) hg2
            next c2 s3 hg2 => cases hopt
          next => cases hopt
        next s3 hopt =>
          have hle3 : StateLE fac s2 s3 := by
            split at hopt
            next m hm =>
              split at hopt
              · cases hopt
              next c2 s4 hg2 =>
                cases Except.ok.inj hopt
                exact GetPrototype_le (hwf.mono hle12) hg2
            next =>
              cases Except.ok.inj hopt
              exact StateLE.rfl fac s2
          have hle := StateLE.trans hle12 hle3
          exact ih s3 (hwf.mono hle) (Nat.lt_of_le_of_lt (unset_le hle) hu) h

/-- No recursion-limit error from `CreatePrototype`, given the loops at the
same fuel. -/
theorem CreatePrototype_noFuel {fuel : Nat} {env : Env} {fac : Nat}
    (hf : ∀ fields s, WF env s → unset s < fuel →
      MessageFactory.BuildFields env fac fuel fields s ≠ .error fuelMsg)
    (he : ∀ exts s, WF env s → unset s < fuel →
      MessageFactory.BuildExtensions env fac fuel exts s ≠ .error fuelMsg) :
    ∀ d s, WF env s → concreteAt s d = none → unset s ≤ fuel →
      MessageFactory.CreatePrototype env fac fuel d s ≠ .error fuelMsg := by
  intro d s hwf h0 hu h
  rw [MessageFactory.CreatePrototype] at h
  split at h
  · simp [fuelMsg] at h
  next desc hdesc =>
    have hd' : d < s.concrete.length :=
      Nat.lt_of_lt_of_le (getElem?_some_lt hdesc) hwf
    have hpos := unset_pos hd' h0
    have halloc := unset_alloc fac h0 hd'
    have hle1 := allocClass_le fac h0 hd'
    have hwf1 := hwf.mono hle1
    have hu1 : unset (allocClass fac d s) < fuel := by omega
    split at h
    next e hfields =>
      cases Except.error.inj h
      exact hf desc.fields _ hwf1 hu1 hfields
    next s2 hfields =>
      have hle2 := (buildMono fuel env fac).2.1 desc.fields _ s2 hwf1 hfields
      split at h
      next e hexts =>
        cases Except.error.inj h
        exact he desc.extensions s2 (hwf1.mono hle2)
          (Nat.lt_of_le_of_lt (unset_le hle2) hu1) hexts
      next s3 hexts => exact Except.noConfusion h

/-- No recursion-limit error from `GetPrototype` at positive fuel, given
`CreatePrototype` at the predecessor. -/
theorem GetPrototype_noFuel_succ {f : Nat} {env : Env} {fac : Nat}
    (hc : ∀ d s, WF env s → concreteAt s d = none → unset s ≤ f →
      MessageFactory.CreatePrototype env fac f d s ≠ .error fuelMsg) :
    ∀ d s, WF env s → unset s < f + 1 →
      MessageFactory.GetPrototype env fac (f + 1) d s ≠ .error fuelMsg := by
  intro d s hwf hu h
  rw [MessageFactory.GetPrototype] at h
  split at h
  · exact Except.noConfusion h
  next h0 => exact hc d s hwf h0 (by omega) h

/-- Fuel adequacy for the whole recursive builder. -/
theorem fuelAdequate : ∀ (fuel : Nat) (env : Env) (fac : Nat),
    (∀ d s, WF env s → unset s < fuel →
      MessageFactory.GetPrototype env fac fuel d s ≠ .error fuelMsg) ∧
    (∀ fields s, WF env s → unset s < fuel →
      MessageFactory.BuildFields env fac fuel fields s ≠ .error fuelMsg) ∧
    (∀ exts s, WF env s → unset s < fuel →
      MessageFactory.BuildExtensions env fac fuel exts s ≠ .error fuelMsg) ∧
    (∀ d s, WF env s → concreteAt s d = none → unset s ≤ fuel →
      MessageFactory.CreatePrototype env fac fuel d s ≠ .error fuelMsg) := by
  intro fuel
  induction fuel with
  | zero =>
    intro env fac
    have hg : ∀ d s, WF env s → unset s < 0 →
        MessageFactory.GetPrototype env fac 0 d s ≠ .error fuelMsg := by
      intro d s _ hu
      omega
    refine ⟨hg, BuildFields_noFuel hg, BuildExtensions_noFuel hg, ?_⟩
    exact CreatePrototype_noFuel (BuildFields_noFuel hg) (BuildExtensions_noFuel hg)
  | succ f ih =>
    intro env fac
    have hg := GetPrototype_noFuel_succ (ih env fac).2.2.2
    refine ⟨hg, BuildFields_noFuel hg, BuildExtensions_noFuel hg, ?_⟩
    exact CreatePrototype_noFuel (BuildFields_noFuel hg) (BuildExtensions_noFuel hg)

/-- C2: `GetPrototype` terminates on cyclic schemas.  In the fueled model:
(1) with fuel above the number of still-unbuilt descriptors the recursion
limit is never hit, for any schema, cyclic or not; (2) the self-referential
`Node` builds successfully into a usable class whose own descriptor's field
type is materialized by the class itself; (3) the mutually recursive pair
`A`/`B` both build successfully. -/
theorem C2_cycle_termination :
    (∀ (env : Env) (fac d fuel : Nat) (s : FactoryState), WF env s → unset s < fuel →
      MessageFactory.GetPrototype env fac fuel d s ≠ .error fuelMsg) ∧
    MessageFactory.GetPrototype envNode 0 2 0 (initState envNode) =
      .ok (0, { pool := [], concrete := [some 0],
                classes := [{ DESCRIPTOR := 0, FACTORY := some 0, registered := [] }] }) ∧
    MessageFactory.GetPrototype envAB 0 3 0 (initState envAB) =
      .ok (0, { pool := [], concrete := [some 0, some 1],
                classes := [{ DESCRIPTOR := 0, FACTORY := some 0, registered := [] },
                            { DESCRIPTOR := 1, FACTORY := some 0, registered := [] }] }) ∧
    MessageFactory.GetPrototype envAB 0 3 1
        { pool := [], concrete := [some 0, some 1],
          classes := [{ DESCRIPTOR := 0, FACTORY := some 0, registered := [] },
                      { DESCRIPTOR := 1, FACTORY := some 0, registered := [] }] } =
      .ok (1, { pool := [], concrete := [some 0, some 1],
                classes := [{ DESCRIPTOR := 0, FACTORY := some 0, registered := [] },
                            { DESCRIPTOR := 1, FACTORY := some 0, registered := [] }] }) := by
  refine ⟨fun env fac d fuel s hwf hu => (fuelAdequate fuel env fac).1 d s hwf hu, ?_, ?_, ?_⟩
  · simp [MessageFactory.GetPrototype, MessageFactory.CreatePrototype,
      MessageFactory.BuildFields, MessageFactory.BuildExtensions, allocClass,
      initState, envNode, concreteAt]
  · simp [MessageFactory.GetPrototype, MessageFactory.CreatePrototype,
      MessageFactory.BuildFields, MessageFactory.BuildExtensions, allocClass,
      initState, envAB, concreteAt]
  · simp [MessageFactory.GetPrototype, concreteAt]

/-- Witness for C2's universally quantified part at the mutual pair. -/
theorem C2_witness :
    MessageFactory.GetPrototype envAB 0 3 0 (initState envAB) ≠ .error fuelMsg :=
  C2_cycle_termination.1 envAB 0 0 3 (initState envAB)
    (by simp [WF, initState, envAB])
    (by simp [unset, initState, envAB])

/-! The fully-built invariant (claim C5). -/

/-- Propositional characterization of `fullyBuilt`. -/
theorem fullyBuilt_iff (env : Env) (s : FactoryState) (c : Nat) :
    fullyBuilt env s c = true ↔
    ∃ (gc : GeneratedClass) (desc : Descriptor),
      s.classes[c]? = some gc ∧ env.descs[gc.DESCRIPTOR]? = some desc ∧
      gc.FACTORY.isSome = true ∧
      (∀ f ∈ desc.fields, ∀ m, f.message_type = some m →
        (concreteAt s m).isSome = true) ∧
      (∀ e ∈ desc.extensions,
        (∀ m, e.message_type = some m → (concreteAt s m).isSome = true) ∧
        ∃ (tc : Nat) (host : GeneratedClass),
          concreteAt s e.containing_type = some tc ∧
          s.classes[tc]? = some host ∧ e ∈ host.registered) := by
  unfold fullyBuilt
  split
  next hgc =>
    constructor
    · intro h; cases h
    · rintro ⟨gc, desc, hg, -⟩
      rw [hgc] at hg
      cases hg
  next gc hgc =>
    split
    next hdesc =>
      constructor
      · intro h; cases h
      · rintro ⟨gc2, desc, hg, hd, -⟩
        rw [hgc] at hg
        cases Option.some_inj.1 hg
        rw [hdesc] at hd
        cases hd
    next desc hdesc =>
      rw [Bool.and_eq_true, Bool.and_eq_true]
      constructor
      · rintro ⟨⟨hfac, hfields⟩, hexts⟩
        refine ⟨gc, desc, hgc, hdesc, hfac, ?_, ?_⟩
        · intro f hf m hm
          have hh := List.all_eq_true.1 hfields f hf
          rw [hm] at hh
          simpa using hh
        · intro e he
          have hh := List.all_eq_true.1 hexts e he
          rw [Bool.and_eq_true] at hh
          obtain ⟨h1, h2⟩ := hh
          constructor
          · intro m hm
            rw [hm] at h1
            simpa using h1
          · cases hct : concreteAt s e.containing_type with
            | none => rw [hct] at h2; cases h2
            | some tc =>
              rw [hct] at h2
              cases hhost : s.classes[tc]? with
              | none => simp [hhost] at h2
              | some host =>
                simp [hhost] at h2
                exact ⟨tc, host, Eq.refl _, hhost, h2⟩
      · rintro ⟨gc2, desc2, hg, hd, hfac, hfields, hexts⟩
        rw [hgc] at hg
        cases Option.some_inj.1 hg
        rw [hdesc] at hd
        cases Option.some_inj.1 hd
        refine ⟨⟨hfac, ?_⟩, ?_⟩
        · rw [List.all_eq_true]
          intro f hf
          cases hm : f.message_type with
          | none => simp
          | some m => simpa using hfields f hf m hm
        · rw [List.all_eq_true]
          intro e he
          rw [Bool.and_eq_true]
          obtain ⟨h1, tc, host, hct, hhost, hmem⟩ := hexts e he
          constructor
          · cases hm : e.message_type with
            | none => simp
            | some m => simpa using h1 m hm
          · rw [hct]
            simp [hhost, hmem]

/-- Being fully built survives state extension. -/
theorem fullyBuilt_mono {env : Env} {fac : Nat} {s s' : FactoryState} {c : Nat}
    (hle : StateLE fac s s') (h : fullyBuilt env s c = true) :
    fullyBuilt env s' c = true := by
  rw [fullyBuilt_iff] at h ⊢
  obtain ⟨gc, desc, hg, hd, hfac, hfields, hexts⟩ := h
  obtain ⟨gc', hg', hdd, hff, hreg⟩ := hle.cls c gc hg
  refine ⟨gc', desc, hg', by rw [hdd]; exact hd, by rw [hff]; exact hfac, ?_, ?_⟩
  · intro f hf m hm
    obtain ⟨v, hv⟩ := Option.isSome_iff_exists.1 (hfields f hf m hm)
    simp [hle.conc m v hv]
  · intro e he
    obtain ⟨h1, tc, host, hct, hhost, hmem⟩ := hexts e he
    obtain ⟨host', hh', -, -, hr'⟩ := hle.cls tc host hhost
    refine ⟨?_, tc, host', hle.conc _ tc hct, hh', hr' e hmem⟩
    intro m hm
    obtain ⟨v, hv⟩ := Option.isSome_iff_exists.1 (h1 m hm)
    simp [hle.conc m v hv]

/-- A successful `RegisterExtension` leaves the extension registered on the
extended class. -/
theorem RegisterExtension_post {cls : Nat} {e : ExtensionDescriptor}
    {s s2 : FactoryState} (h : RegisterExtension cls e s = .ok s2) :
    ∃ host : GeneratedClass, s2.classes[cls]? = some host ∧ e ∈ host.registered := by
  unfold RegisterExtension at h
  split at h
  · cases h
  next gc hcls =>
    split at h
    next e0 hfind =>
      split at h
      next heq =>
        cases Except.ok.inj h
        subst heq
        exact ⟨gc, hcls, List.mem_of_find?_eq_some hfind⟩
      · cases h
    next hfind =>
      cases Except.ok.inj h
      have hlt : cls < s.classes.length := getElem?_some_lt hcls
      refine ⟨{ gc with registered := gc.registered ++ [e] }, ?_, ?_⟩
      · rw [List.getElem?_set_self hlt]
      · simp

/-- `RegisterExtension` does not touch the `_concrete_class` attributes. -/
theorem RegisterExtension_concrete {cls : Nat} {e : ExtensionDescriptor}
    {s s2 : FactoryState} (h : RegisterExtension cls e s = .ok s2) :
    s2.concrete = s.concrete := by
  unfold RegisterExtension at h
  split at h
  · cases h
  next gc hcls =>
    split at h
    next e0 hfind =>
      split at h
      · cases Except.ok.inj h; exact Eq.refl _
      · cases h
    next hfind =>
      cases Except.ok.inj h
      exact Eq.refl _

/-- `RegisterExtension` preserves the built-except invariant. -/
theorem RegisterExtension_built {env : Env} {P : List Nat} {cls : Nat}
    {e : ExtensionDescriptor} {s s2 : FactoryState}
    (hb : builtExcept env P s) (h : RegisterExtension cls e s = .ok s2) :
    builtExcept env P s2 := by
  have hle := RegisterExtension_le 0 cls e h
  have hconc : ∀ d, concreteAt s2 d = concreteAt s d := by
    intro d
    unfold concreteAt
    rw [RegisterExtension_concrete h]
  intro d c hc
  rw [hconc] at hc
  rcases hb d c hc with h0 | h0
  · exact Or.inl h0
  · exact Or.inr (fullyBuilt_mono hle h0)

/-- A registration witness survives state extension. -/
theorem regWitness_mono {fac : Nat} {s s' : FactoryState} {e : ExtensionDescriptor}
    (hle : StateLE fac s s')
    (h : ∃ (tc : Nat) (host : GeneratedClass),
      concreteAt s e.containing_type = some tc ∧
      s.classes[tc]? = some host ∧ e ∈ host.registered) :
    ∃ (tc : Nat) (host : GeneratedClass),
      concreteAt s' e.containing_type = some tc ∧
      s'.classes[tc]? = some host ∧ e ∈ host.registered := by
  obtain ⟨tc, host, hct, hhost, hmem⟩ := h
  obtain ⟨host', hh', -, -, hr⟩ := hle.cls tc host hhost
  exact ⟨tc, host', hle.conc _ tc hct, hh', hr e hmem⟩

/-- Materialization survives state extension. -/
theorem isSome_mono {fac : Nat} {s s' : FactoryState} (hle : StateLE fac s s')
    {m : Nat} (h : (concreteAt s m).isSome = true) :
    (concreteAt s' m).isSome = true := by
  obtain ⟨v, hv⟩ := Option.isSome_iff_exists.1 h
  simp [hle.conc m v hv]

/-- The field loop preserves the built-except invariant and materializes
every message-typed field it visits. -/
theorem BuildFields_built {fuel : Nat} {env : Env} {fac : Nat} {P : List Nat}
    (hg : ∀ d s c s', WF env s → builtExcept env P s →
      MessageFactory.GetPrototype env fac fuel d s = .ok (c, s') →
      builtExcept env P s' ∧ concreteAt s' d = some c) :
    ∀ fields s s', WF env s → builtExcept env P s →
      MessageFactory.BuildFields env fac fuel fields s = .ok s' →
      builtExcept env P s' ∧
      ∀ f ∈ fields, ∀ m, f.message_type = some m →
        (concreteAt s' m).isSome = true := by
  intro fields
  induction fields with
  | nil =>
    intro s s' hwf hb h
    rw [MessageFactory.BuildFields] at h
    cases Except.ok.inj h
    exact ⟨hb, by intro f hf m hm; exact absurd hf (List.not_mem_nil f)⟩
  | cons f rest ih =>
    intro s s' hwf hb h
    rw [MessageFactory.BuildFields] at h
    split at h
    next hm0 =>
      obtain ⟨hb', hmat⟩ := ih s s' hwf hb h
      refine ⟨hb', ?_⟩
      intro f' hf' m hm
      rcases List.mem_cons.1 hf' with h1 | h1
      · subst h1; rw [hm0] at hm; cases hm
      · exact hmat f' h1 m hm
    next m0 hm0 =>
      split at h
      · cases h
      next c1 s1 hg1 =>
        obtain ⟨hb1, hc1⟩ := hg _ s c1 s1 hwf hb hg1
        have hle1 := GetPrototype_le hwf hg1
        have hwf1 := hwf.mono hle1
        obtain ⟨hb', hmat⟩ := ih s1 s' hwf1 hb1 h
        have hle2 : StateLE fac s1 s' := (buildMono fuel env fac).2.1 rest s1 s' hwf1 h
        refine ⟨hb', ?_⟩
        intro f' hf' m hm
        rcases List.mem_cons.1 hf' with h1 | h1
        · subst h1
          rw [hm0] at hm
          cases Option.some_inj.1 hm
          exact isSome_mono hle2 (by simp [hc1])
        · exact hmat f' h1 m hm

/-- The extension loop preserves the built-except invariant, registers every
extension it visits on its extended class and materializes the extensions'
message value types. -/
theorem BuildExtensions_built {fuel : Nat} {env : Env} {fac : Nat} {P : List Nat}
    (hg : ∀ d s c s', WF env s → builtExcept env P s →
      MessageFactory.GetPrototype env fac fuel d s = .ok (c, s') →
      builtExcept env P s' ∧ concreteAt s' d = some c) :
    ∀ exts s s', WF env s → builtExcept env P s →
      MessageFactory.BuildExtensions env fac fuel exts s = .ok s' →
      builtExcept env P s' ∧
      ∀ e ∈ exts,
        (∀ m, e.message_type = some m → (concreteAt s' m).isSome = true) ∧
        ∃ (tc : Nat) (host : GeneratedClass),
          concreteAt s' e.containing_type = some tc ∧
          s'.classes[tc]? = some host ∧ e ∈ host.registered := by
  intro exts
  induction exts with
  | nil =>
    intro s s' hwf hb h
    rw [MessageFactory.BuildExtensions] at h
    cases Except.ok.inj h
    exact ⟨hb, by intro e he; exact absurd he (List.not_mem_nil e)⟩
  | cons e rest ih =>
    intro s s' hwf hb h
    rw [MessageFactory.BuildExtensions] at h
    split at h
    · cases h
    next cls s1 hg1 =>
      obtain ⟨hb1, hc1⟩ := hg _ s cls s1 hwf hb hg1
      have hle1 := GetPrototype_le hwf hg1
      have hwf1 := hwf.mono hle1
      split at h
      · cases h
      next s2 hreg =>
        have hb2 := RegisterExtension_built hb1 hreg
        have hle2 := RegisterExtension_le fac cls e hreg
        have hwf2 := hwf1.mono hle2
        obtain ⟨host2, hhost2, hmem2⟩ := RegisterExtension_post hreg
        have hc2 : concreteAt s2 e.containing_type = some cls := hle2.conc _ cls hc1
        split at h
        · cases h
        next s3 hopt =>
          have hstep : StateLE fac s2 s3 ∧ builtExcept env P s3 ∧
              (∀ m, e.message_type = some m → (concreteAt s3 m).isSome = true) := by
            split at hopt
            next m hm =>
              split at hopt
              · cases hopt
              next c4 s4 hg4 =>
                cases Except.ok.inj hopt
                obtain ⟨hb3, hc4⟩ := hg _ s2 c4 s3 hwf2 hb2 hg4
                refine ⟨GetPrototype_le hwf2 hg4, hb3, ?_⟩
                intro m' hm'
                rw [hm] at hm'
                cases Option.some_inj.1 hm'
                simp [hc4]
            next hm =>
              cases Except.ok.inj hopt
              refine ⟨StateLE.rfl fac s2, hb2, ?_⟩
              intro m' hm'
              rw [hm] at hm'
              cases hm'
          obtain ⟨hle3, hb3, hmatE⟩ := hstep
          have hwf3 := hwf2.mono hle3
          obtain ⟨hb', hrest⟩ := ih s3 s' hwf3 hb3 h
          have hle4 : StateLE fac s3 s' :=
            (buildMono fuel env fac).2.2.1 rest s3 s' hwf3 h
          refine ⟨hb', ?_⟩
          intro e' he'
          rcases List.mem_cons.1 he' with h1 | h1
          · subst h1
            constructor
            · intro m hm'
              exact isSome_mono hle4 (hmatE m hm')
            · exact regWitness_mono (StateLE.trans hle3 hle4)
                ⟨cls, host2, hc2, hhost2, hmem2⟩
          · exact hrest e' h1

/-- `CreatePrototype` preserves the built-except invariant and delivers a
fully built class for an unset descriptor. -/
theorem CreatePrototype_built {fuel : Nat} {env : Env} {fac : Nat}
    (hf : ∀ (P : List Nat) (fields : List FieldDescriptor) s s',
      WF env s → builtExcept env P s →
      MessageFactory.BuildFields env fac fuel fields s = .ok s' →
      builtExcept env P s' ∧
      ∀ f ∈ fields, ∀ m, f.message_type = some m → (concreteAt s' m).isSome = true)
    (he : ∀ (P : List Nat) (exts : List ExtensionDescriptor) s s',
      WF env s → builtExcept env P s →
      MessageFactory.BuildExtensions env fac fuel exts s = .ok s' →
      builtExcept env P s' ∧
      ∀ e ∈ exts,
        (∀ m, e.message_type = some m → (concreteAt s' m).isSome = true) ∧
        ∃ (tc : Nat) (host : GeneratedClass),
          concreteAt s' e.containing_type = some tc ∧
          s'.classes[tc]? = some host ∧ e ∈ host.registered) :
    ∀ (P : List Nat) d s c s', WF env s → builtExcept env P s →
      concreteAt s d = none →
      MessageFactory.CreatePrototype env fac fuel d s = .ok (c, s') →
      builtExcept env P s' ∧ concreteAt s' d = some c ∧
      fullyBuilt env s' c = true := by
  intro P d s c s' hwf hb h0 h
  rw [MessageFactory.CreatePrototype] at h
  split at h
  · cases h
  next desc hdesc =>
    have hdlt : d < env.descs.length := getElem?_some_lt hdesc
    have hd' : d < s.concrete.length := Nat.lt_of_lt_of_le hdlt hwf
    have hle1 := allocClass_le fac h0 hd'
    have hwf1 := hwf.mono hle1
    have hcA : concreteAt (allocClass fac d s) d = some s.classes.length :=
      allocClass_concrete fac hd'
    have hbA : builtExcept env (d :: P) (allocClass fac d s) := by
      intro d0 c0 hc0
      by_cases hde : d0 = d
      · subst hde
        exact Or.inl (List.mem_cons_self _ _)
      · rw [allocClass_concrete_ne fac (fun hh => hde hh.symm)] at hc0
        rcases hb d0 c0 hc0 with hx | hx
        · exact Or.inl (List.mem_cons_of_mem d hx)
        · exact Or.inr (fullyBuilt_mono hle1 hx)
    split at h
    · cases h
    next s2 hfields =>
      obtain ⟨hb2, hmat2⟩ := hf (d :: P) desc.fields _ s2 hwf1 hbA hfields
      have hle2 : StateLE fac (allocClass fac d s) s2 :=
        (buildMono fuel env fac).2.1 desc.fields _ s2 hwf1 hfields
      have hwf2 := hwf1.mono hle2
      split at h
      · cases h
      next s3 hexts =>
        cases Except.ok.inj h
        obtain ⟨hb3, hexts3⟩ := he (d :: P) desc.extensions s2 s' hwf2 hb2 hexts
        have hle3 : StateLE fac s2 s' :=
          (buildMono fuel env fac).2.2.1 desc.extensions s2 s' hwf2 hexts
        have hcls1 := allocClass_class fac d s
        obtain ⟨gc3, hg3, hdd3, hff3, -⟩ :=
          (StateLE.trans hle2 hle3).cls s.classes.length _ hcls1
        have hc3 : concreteAt s' d = some s.classes.length :=
          (StateLE.trans hle2 hle3).conc d _ hcA
        have hfb : fullyBuilt env s' s.classes.length = true := by
          rw [fullyBuilt_iff]
          refine ⟨gc3, desc, hg3, ?_, ?_, ?_, ?_⟩
          · rw [hdd3]; exact hdesc
          · rw [hff3]; exact Eq.refl _
          · intro f hfmem m hm
            exact isSome_mono hle3 (hmat2 f hfmem m hm)
          · intro e he'
            exact hexts3 e he'
        refine ⟨?_, hc3, hfb⟩
        intro d0 c0 hc0
        by_cases hde : d0 = d
        · subst hde
          have hcc : c0 = s.classes.length := by
            rw [hc3] at hc0
            exact (Option.some_inj.1 hc0).symm
          rw [hcc]
          exact Or.inr hfb
        · rcases hb3 d0 c0 hc0 with hx | hx
          · rcases List.mem_cons.1 hx with h1 | h1
            · exact absurd h1 hde
            · exact Or.inl h1
          · exact Or.inr hx

/-- `GetPrototype` at positive fuel preserves the built-except invariant and
returns a class that is fully built unless its descriptor's build was already
in progress. -/
theorem GetPrototype_built_succ {f : Nat} {env : Env} {fac : Nat}
    (hc : ∀ (P : List Nat) d s c s', WF env s → builtExcept env P s →
      concreteAt s d = none →
      MessageFactory.CreatePrototype env fac f d s = .ok (c, s') →
      builtExcept env P s' ∧ concreteAt s' d = some c ∧
      fullyBuilt env s' c = true) :
    ∀ (P : List Nat) d s c s', WF env s → builtExcept env P s →
      MessageFactory.GetPrototype env fac (f + 1) d s = .ok (c, s') →
      builtExcept env P s' ∧ concreteAt s' d = some c ∧
      (d ∈ P ∨ fullyBuilt env s' c = true) := by
  intro P d s c s' hwf hb h
  rw [MessageFactory.GetPrototype] at h
  split at h
  next c0 hc0 =>
    cases Except.ok.inj h
    exact ⟨hb, hc0, hb d c hc0⟩
  next h0 =>
    obtain ⟨h1, h2, h3⟩ := hc P d s c s' hwf hb h0 h
    exact ⟨h1, h2, Or.inr h3⟩

/-- The built-except invariant for the whole recursive builder. -/
theorem builtAll : ∀ (fuel : Nat) (env : Env) (fac : Nat),
    (∀ (P : List Nat) d s c s', WF env s → builtExcept env P s →
      MessageFactory.GetPrototype env fac fuel d s = .ok (c, s') →
      builtExcept env P s' ∧ concreteAt s' d = some c ∧
      (d ∈ P ∨ fullyBuilt env s' c = true)) ∧
    (∀ (P : List Nat) d s c s', WF env s → builtExcept env P s →
      concreteAt s d = none →
      MessageFactory.CreatePrototype env fac fuel d s = .ok (c, s') →
      builtExcept env P s' ∧ concreteAt s' d = some c ∧
      fullyBuilt env s' c = true) := by
  intro fuel
  induction fuel with
  | zero =>
    intro env fac
    have hg : ∀ (P : List Nat) d s c s', WF env s → builtExcept env P s →
        MessageFactory.GetPrototype env fac 0 d s = .ok (c, s') →
        builtExcept env P s' ∧ concreteAt s' d = some c ∧
        (d ∈ P ∨ fullyBuilt env s' c = true) := by
      intro P d s c s' _ _ h
      rw [MessageFactory.GetPrototype] at h
      cases h
    have hgw : ∀ (P : List Nat) d s c s', WF env s → builtExcept env P s →
        MessageFactory.GetPrototype env fac 0 d s = .ok (c, s') →
        builtExcept env P s' ∧ concreteAt s' d = some c := by
      intro P d s c s' hwf hb h
      obtain ⟨h1, h2, -⟩ := hg P d s c s' hwf hb h
      exact ⟨h1, h2⟩
    exact ⟨hg, CreatePrototype_built
      (fun P => BuildFields_built (fun d s c s' => hgw P d s c s'))
      (fun P => BuildExtensions_built (fun d s c s' => hgw P d s c s'))⟩
  | succ f ih =>
    intro env fac
    have hg := GetPrototype_built_succ (ih env fac).2
    have hgw : ∀ (P : List Nat) d s c s', WF env s → builtExcept env P s →
        MessageFactory.GetPrototype env fac (f + 1) d s = .ok (c, s') →
        builtExcept env P s' ∧ concreteAt s' d = some c := by
      intro P d s c s' hwf hb h
      obtain ⟨h1, h2, -⟩ := hg P d s c s' hwf hb h
      exact ⟨h1, h2⟩
    exact ⟨hg, CreatePrototype_built
      (fun P => BuildFields_built (fun d s c s' => hgw P d s c s'))
      (fun P => BuildExtensions_built (fun d s c s' => hgw P d s c s'))⟩

/-- In the initial state no descriptor has a `_concrete_class` attribute. -/
theorem concreteAt_init (env : Env) (d : Nat) :
    concreteAt (initState env) d = none := by
  unfold concreteAt initState
  simp only [List.getD_eq_getElem?_getD, List.getElem?_replicate]
  split <;> rfl

/-- The initial state is coherent. -/
theorem coherent_init (env : Env) : coherent env (initState env) := by
  intro d c hc
  rw [concreteAt_init] at hc
  cases hc

/-- C5 counterexample: a partially-constructed class is observable.  In the
schema `A(fields B, C)`, `B(field A)`, `C`, the run `CreatePrototype(A)`
allocates `A`'s class (state `allocClass 0 0 (initState envABC)`), recurses
into `B`, whose `CreatePrototype` allocates `B`'s class; the state at that
moment is exactly `allocClass 0 1 (allocClass 0 0 (initState envABC))`, the
literal below.  `B`'s field loop then calls `GetPrototype(A)`, which returns
`A`'s class 0 — while `A`'s second field type `C` is not yet materialized, so
class 0 is not fully built at the moment it is returned (and the whole build
nevertheless completes afterwards). -/
theorem C5_counterexample :
    MessageFactory.GetPrototype envABC 0 2 0
        { pool := [], concrete := [some 0, some 1, none],
          classes := [{ DESCRIPTOR := 0, FACTORY := some 0, registered := [] },
                      { DESCRIPTOR := 1, FACTORY := some 0, registered := [] }] } =
      .ok (0, { pool := [], concrete := [some 0, some 1, none],
                classes := [{ DESCRIPTOR := 0, FACTORY := some 0, registered := [] },
                            { DESCRIPTOR := 1, FACTORY := some 0, registered := [] }] }) ∧
    fullyBuilt envABC
      { pool := [], concrete := [some 0, some 1, none],
        classes := [{ DESCRIPTOR := 0, FACTORY := some 0, registered := [] },
                    { DESCRIPTOR := 1, FACTORY := some 0, registered := [] }] } 0 = false ∧
    ({ pool := [], concrete := [some 0, some 1, none],
       classes := [{ DESCRIPTOR := 0, FACTORY := some 0, registered := [] },
                   { DESCRIPTOR := 1, FACTORY := some 0, registered := [] }] }
      : FactoryState) = allocClass 0 1 (allocClass 0 0 (initState envABC)) ∧
    MessageFactory.GetPrototype envABC 0 4 0 (initState envABC) =
      .ok (0, { pool := [], concrete := [some 0, some 1, some 2],
                classes := [{ DESCRIPTOR := 0, FACTORY := some 0, registered := [] },
                            { DESCRIPTOR := 1, FACTORY := some 0, registered := [] },
                            { DESCRIPTOR := 2, FACTORY := some 0, registered := [] }] }) := by
  refine ⟨?_, ?_, ?_, ?_⟩
  · simp [MessageFactory.GetPrototype, concreteAt]
  · decide
  · decide
  · simp [MessageFactory.GetPrototype, MessageFactory.CreatePrototype,
      MessageFactory.BuildFields, MessageFactory.BuildExtensions, allocClass,
      initState, envABC, concreteAt]

/-- C5 amended: from a coherent state (no build in progress), every class a
completed `GetPrototype` call returns is fully built at the moment it is
returned, and coherence is restored; only a re-entrant call issued while a
build is still in progress can observe a not-yet-fully-built class. -/
theorem C5_toplevel_fully_built {env : Env} {fac fuel d : Nat} {s : FactoryState}
    {c : Nat} {s' : FactoryState} (hwf : WF env s) (hco : coherent env s)
    (h : MessageFactory.GetPrototype env fac fuel d s = .ok (c, s')) :
    coherent env s' ∧ fullyBuilt env s' c = true := by
  have hb : builtExcept env [] s := fun d0 c0 hc0 => Or.inr (hco d0 c0 hc0)
  obtain ⟨hb', -, hor⟩ := (builtAll fuel env fac).1 [] d s c s' hwf hb h
  constructor
  · intro d0 c0 hc0
    rcases hb' d0 c0 hc0 with h0 | h0
    · exact absurd h0 (List.not_mem_nil d0)
    · exact h0
  · rcases hor with h0 | h0
    · exact absurd h0 (List.not_mem_nil d)
    · exact h0

/-- Witness for the amended C5 at the `A`/`B`/`C` schema from the initial
state. -/
theorem C5_witness :
    coherent envABC
      { pool := [], concrete := [some 0, some 1, some 2],
        classes := [{ DESCRIPTOR := 0, FACTORY := some 0, registered := [] },
                    { DESCRIPTOR := 1, FACTORY := some 0, registered := [] },
                    { DESCRIPTOR := 2, FACTORY := some 0, registered := [] }] } ∧
    fullyBuilt envABC
      { pool := [], concrete := [some 0, some 1, some 2],
        classes := [{ DESCRIPTOR := 0, FACTORY := some 0, registered := [] },
                    { DESCRIPTOR := 1, FACTORY := some 0, registered := [] },
                    { DESCRIPTOR := 2, FACTORY := some 0, registered := [] }] } 0 = true :=
  @C5_toplevel_fully_built envABC 0 4 0 (initState envABC) 0
    { pool := [], concrete := [some 0, some 1, some 2],
      classes := [{ DESCRIPTOR := 0, FACTORY := some 0, registered := [] },
                  { DESCRIPTOR := 1, FACTORY := some 0, registered := [] },
                  { DESCRIPTOR := 2, FACTORY := some 0, registered := [] }] }
    (by simp [WF, initState, envABC])
    (coherent_init envABC)
    (by simp [MessageFactory.GetPrototype, MessageFactory.CreatePrototype,
      MessageFactory.BuildFields, MessageFactory.BuildExtensions, allocClass,
      initState, envABC, concreteAt])

/-! The factory-level `GetMessages` loops (claims C6, C9, C10). -/

/-- The message loop of `GetMessages` only extends the state. -/
theorem BuildMessages_le {env : Env} {fac fuel : Nat} :
    ∀ (msgs : List Nat) (res : List (String × Nat)) s res' s', WF env s →
      MessageFactory.BuildMessages env fac fuel msgs res s = .ok (res', s') →
      StateLE fac s s' := by
  intro msgs
  induction msgs with
  | nil =>
    intro res s res' s' _ h
    rw [MessageFactory.BuildMessages] at h
    cases Except.ok.inj h
    exact StateLE.rfl fac s
  | cons d rest ih =>
    intro res s res' s' hwf h
    rw [MessageFactory.BuildMessages] at h
    split at h
    · cases h
    next desc hdesc =>
      split at h
      · cases h
      next c1 s1 hg1 =>
        have hle1 := GetPrototype_le hwf hg1
        exact StateLE.trans hle1 (ih _ s1 res' s' (hwf.mono hle1) h)

/-- The file loop of `GetMessages` only extends the state. -/
theorem GetMessagesLoop_le {env : Env} {fac fuel : Nat} :
    ∀ (files : List String) (res : List (String × Nat)) s res' s', WF env s →
      MessageFactory.GetMessagesLoop env fac fuel files res s = .ok (res', s') →
      StateLE fac s s' := by
  intro files
  induction files with
  | nil =>
    intro res s res' s' _ h
    rw [MessageFactory.GetMessagesLoop] at h
    cases Except.ok.inj h
    exact StateLE.rfl fac s
  | cons fn rest ih =>
    intro res s res' s' hwf h
    rw [MessageFactory.GetMessagesLoop] at h
    split at h
    · cases h
    next fd hfd =>
      split at h
      · cases h
      next res1 s1 hmsgs =>
        have hle1 := BuildMessages_le fd.message_type res s res1 s1 hwf hmsgs
        split at h
        · cases h
        next s2 hexts =>
          have hle2 : StateLE fac s1 s2 :=
            (buildMono fuel env fac).2.2.1 fd.extension s1 s2 (hwf.mono hle1) hexts
          have hle12 := StateLE.trans hle1 hle2
          exact StateLE.trans hle12 (ih res1 s2 res' s' (hwf.mono hle12) h)

/-- Lookup at a matching head. -/
theorem lookupKV_cons_eq {k1 : String} {v1 : Nat} {rest : List (String × Nat)}
    {k' : String} (h : k1 = k') : lookupKV ((k1, v1) :: rest) k' = some v1 := by
  simp [lookupKV, List.find?, h]

/-- Lookup skips a non-matching head. -/
theorem lookupKV_cons_ne {k1 : String} {v1 : Nat} {rest : List (String × Nat)}
    {k' : String} (h : ¬ k1 = k') :
    lookupKV ((k1, v1) :: rest) k' = lookupKV rest k' := by
  have hb : (k1 == k') = false := beq_eq_false_iff_ne.2 h
  simp [lookupKV, List.find?, hb]

/-- Lookup after a dict insertion. -/
theorem lookupKV_insertKV :
    ∀ (m : List (String × Nat)) (k : String) (v : Nat) (k' : String),
      lookupKV (insertKV m k v) k' = if k' = k then some v else lookupKV m k' := by
  intro m k v
  induction m with
  | nil =>
    intro k'
    by_cases hk : k' = k
    · rw [if_pos hk]
      exact lookupKV_cons_eq hk.symm
    · rw [if_neg hk]
      exact lookupKV_cons_ne (fun h => hk h.symm)
  | cons a rest ih =>
    intro k'
    obtain ⟨k1, v1⟩ := a
    show lookupKV (if k1 = k then (k, v) :: rest else (k1, v1) :: insertKV rest k v) k' =
      if k' = k then some v else lookupKV ((k1, v1) :: rest) k'
    by_cases hk1 : k1 = k
    · rw [if_pos hk1]
      by_cases hk : k' = k
      · rw [if_pos hk, lookupKV_cons_eq hk.symm]
      · rw [if_neg hk, lookupKV_cons_ne (fun h => hk h.symm),
          lookupKV_cons_ne (fun h => hk (h.symm.trans hk1))]
    · rw [if_neg hk1]
      by_cases hk : k1 = k'
      · rw [lookupKV_cons_eq hk, lookupKV_cons_eq hk,
          if_neg (fun h => hk1 (hk.trans h))]
      · rw [lookupKV_cons_ne hk, lookupKV_cons_ne hk, ih k']

/-- Keys added by the message loop: exactly the fully qualified names of the
processed message descriptors. -/
theorem BuildMessages_keys {env : Env} {fac fuel : Nat} :
    ∀ (msgs : List Nat) (res : List (String × Nat)) s res' s',
      MessageFactory.BuildMessages env fac fuel msgs res s = .ok (res', s') →
      ∀ n, (lookupKV res' n).isSome = true ↔
        ((lookupKV res n).isSome = true ∨
          n ∈ msgs.filterMap
            (fun d => (env.descs[d]?).map (fun desc => desc.full_name))) := by
  intro msgs
  induction msgs with
  | nil =>
    intro res s res' s' h n
    rw [MessageFactory.BuildMessages] at h
    cases Except.ok.inj h
    simp
  | cons d rest ih =>
    intro res s res' s' h n
    rw [MessageFactory.BuildMessages] at h
    split at h
    · cases h
    next desc hdesc =>
      split at h
      · cases h
      next c1 s1 hg1 =>
        have hih := ih (insertKV res desc.full_name c1) s1 res' s' h n
        rw [hih, List.filterMap_cons]
        rw [hdesc]
        simp only [Option.map_some', List.mem_cons]
        rw [lookupKV_insertKV]
        by_cases hn : n = desc.full_name
        · simp [hn]
        · simp [hn]

/-- Keys of the file loop: the old keys plus the top-level message names of
the processed files. -/
theorem GetMessagesLoop_keys {env : Env} {fac fuel : Nat} :
    ∀ (files : List String) (res : List (String × Nat)) s res' s', WF env s →
      MessageFactory.GetMessagesLoop env fac fuel files res s = .ok (res', s') →
      ∀ n, (lookupKV res' n).isSome = true ↔
        ((lookupKV res n).isSome = true ∨ n ∈ topLevelNames env s.pool files) := by
  intro files
  induction files with
  | nil =>
    intro res s res' s' _ h n
    rw [MessageFactory.GetMessagesLoop] at h
    cases Except.ok.inj h
    simp [topLevelNames]
  | cons fn rest ih =>
    intro res s res' s' hwf h n
    rw [MessageFactory.GetMessagesLoop] at h
    split at h
    · cases h
    next fd hfd =>
      split at h
      · cases h
      next res1 s1 hmsgs =>
        have hle1 := BuildMessages_le fd.message_type res s res1 s1 hwf hmsgs
        split at h
        · cases h
        next s2 hexts =>
          have hle2 : StateLE fac s1 s2 :=
            (buildMono fuel env fac).2.2.1 fd.extension s1 s2 (hwf.mono hle1) hexts
          have hle12 := StateLE.trans hle1 hle2
          have hpool : s2.pool = s.pool := hle12.pool
          have hih := ih res1 s2 res' s' (hwf.mono hle12) h n
          have hm := BuildMessages_keys fd.message_type res s res1 s1 hmsgs n
          rw [hih, hm]
          have htln : topLevelNames env s.pool (fn :: rest) =
              fd.message_type.filterMap
                (fun d => (env.descs[d]?).map (fun desc => desc.full_name)) ++
              topLevelNames env s.pool rest := by
            unfold topLevelNames
            rw [List.flatMap_cons, hfd]
          rw [hpool, htln]
          simp only [List.mem_append]
          constructor
          · rintro ((h0 | h0) | h0)
            · exact Or.inl h0
            · exact Or.inr (Or.inl h0)
            · exact Or.inr (Or.inr h0)
          · rintro (h0 | h0 | h0)
            · exact Or.inl (Or.inl h0)
            · exact Or.inl (Or.inr h0)
            · exact Or.inr h0

/-- C6 counterexample: requesting `F1` (which declares `pkg.M1` with a field
of type `pkg.M2`, declared in the dependency file `F2`) builds `pkg.M2` — it
is transitively required — yet the returned mapping does not contain it: the
mapping's only key is `pkg.M1`. -/
theorem C6_counterexample :
    MessageFactory.GetMessages envM1M2 0 ["F1"]
        { pool := [fileF2, fileF1], concrete := [none, none], classes := [] } =
      .ok ([("pkg.M1", 0)],
        { pool := [fileF2, fileF1], concrete := [some 0, some 1],
          classes := [{ DESCRIPTOR := 0, FACTORY := some 0, registered := [] },
                      { DESCRIPTOR := 1, FACTORY := some 0, registered := [] }] }) ∧
    lookupKV [("pkg.M1", 0)] "pkg.M2" = none ∧
    concreteAt
      { pool := [fileF2, fileF1], concrete := [some 0, some 1],
        classes := [{ DESCRIPTOR := 0, FACTORY := some 0, registered := [] },
                    { DESCRIPTOR := 1, FACTORY := some 0, registered := [] }] } 1 =
      some 1 := by
  refine ⟨?_, by decide, by decide⟩
  simp [MessageFactory.GetMessages, MessageFactory.GetMessagesLoop,
    MessageFactory.BuildMessages, MessageFactory.GetPrototype,
    MessageFactory.CreatePrototype, MessageFactory.BuildFields,
    MessageFactory.BuildExtensions, FindFileByName, defaultFuel, allocClass,
    insertKV, envM1M2, fileF1, fileF2, concreteAt]

/-- C6 amended: the mapping returned by `MessageFactory.GetMessages` has as
keys exactly the fully qualified names of the top-level message types
declared directly in the requested files; transitively required types are
built and cached but not included in the mapping. -/
theorem C6_mapping_keys {env : Env} {fac : Nat} {files : List String}
    {s : FactoryState} {res : List (String × Nat)} {s' : FactoryState}
    (hwf : WF env s)
    (h : MessageFactory.GetMessages env fac files s = .ok (res, s')) :
    ∀ n, (lookupKV res n).isSome = true ↔ n ∈ topLevelNames env s.pool files := by
  unfold MessageFactory.GetMessages at h
  have hk := GetMessagesLoop_keys files [] s res s' hwf h
  intro n
  rw [hk n]
  have h0 : lookupKV [] n = none := Eq.refl _
  simp [h0]

/-- Witness for the amended C6 at the two-file schema. -/
theorem C6_witness :
    (lookupKV [("pkg.M1", 0)] "pkg.M1").isSome = true ↔
      "pkg.M1" ∈ topLevelNames envM1M2 [fileF2, fileF1] ["F1"] :=
  @C6_mapping_keys envM1M2 0 ["F1"]
    { pool := [fileF2, fileF1], concrete := [none, none], classes := [] }
    [("pkg.M1", 0)]
    { pool := [fileF2, fileF1], concrete := [some 0, some 1],
      classes := [{ DESCRIPTOR := 0, FACTORY := some 0, registered := [] },
                  { DESCRIPTOR := 1, FACTORY := some 0, registered := [] }] }
    (by simp [WF, envM1M2])
    (by simp [MessageFactory.GetMessages, MessageFactory.GetMessagesLoop,
      MessageFactory.BuildMessages, MessageFactory.GetPrototype,
      MessageFactory.CreatePrototype, MessageFactory.BuildFields,
      MessageFactory.BuildExtensions, FindFileByName, defaultFuel, allocClass,
      insertKV, envM1M2, fileF1, fileF2, concreteAt])
    "pkg.M1"

/-- C8: extension registration is idempotent by field number on the extended
class (registered numbers are unique on any reachable class): re-registering
an already-registered identical definition succeeds as a no-op, while
registering a different definition at an occupied field number is a fatal
conflict.  Both `CreatePrototype` (lines 107-111) and the batch
`GetMessages` (lines 143-147) register through this same
`MessageFactory.BuildExtensions` loop. -/
theorem C8_RegisterExtension_idempotent_conflict :
    ∀ (s : FactoryState) (cls : Nat) (gc : GeneratedClass)
      (e e' : ExtensionDescriptor),
      s.classes[cls]? = some gc →
      (gc.registered.map (fun x => x.number)).Nodup →
      (e ∈ gc.registered → RegisterExtension cls e s = .ok s) ∧
      (e' ∈ gc.registered → e'.number = e.number → e' ≠ e →
        RegisterExtension cls e s = .error "extension conflict") := by
  intro s cls gc e e' hcls hnodup
  have hinj := List.inj_on_of_nodup_map hnodup
  constructor
  · intro he
    have hsome : (gc.registered.find? (fun x => x.number == e.number)).isSome := by
      rw [List.find?_isSome]
      exact ⟨e, he, by simp⟩
    obtain ⟨e0, hfind⟩ := Option.isSome_iff_exists.1 hsome
    have he0num : e0.number = e.number := by
      have := List.find?_some hfind
      simpa using this
    have he0mem := List.mem_of_find?_eq_some hfind
    have he0 : e0 = e := hinj he0mem he he0num
    subst he0
    simp only [RegisterExtension, hcls, hfind]
    simp
  · intro he' hnum hne
    have hsome : (gc.registered.find? (fun x => x.number == e.number)).isSome := by
      rw [List.find?_isSome]
      exact ⟨e', he', by simp [hnum]⟩
    obtain ⟨e0, hfind⟩ := Option.isSome_iff_exists.1 hsome
    have he0num : e0.number = e.number := by
      have := List.find?_some hfind
      simpa using this
    have he0mem := List.mem_of_find?_eq_some hfind
    have he0 : e0 = e' := hinj he0mem he' (he0num.trans hnum.symm)
    have hne0 : ¬ e0 = e := by
      rw [he0]
      exact hne
    simp only [RegisterExtension, hcls, hfind]
    rw [if_neg hne0]

/-- Witness for C8: on a class with `ext100A` registered, re-registering
`ext100A` is a no-op and registering `ext100B` (same number 100, different
definition) is a conflict. -/
theorem C8_witness :
    RegisterExtension 0 ext100A stExt = .ok stExt ∧
    RegisterExtension 0 ext100B stExt = .error "extension conflict" :=
  ⟨(C8_RegisterExtension_idempotent_conflict stExt 0
      { DESCRIPTOR := 0, FACTORY := some 0, registered := [ext100A] }
      ext100A ext100A (by decide) (by decide)).1 (by decide),
   (C8_RegisterExtension_idempotent_conflict stExt 0
      { DESCRIPTOR := 0, FACTORY := some 0, registered := [ext100A] }
      ext100B ext100A (by decide) (by decide)).2 (by decide) (by decide) (by decide)⟩

/-- `AddAll` appends exactly its input files on success. -/
theorem AddAll_append :
    ∀ (l pool p' : List FileDescriptorProto), AddAll l pool = .ok p' →
      p' = pool ++ l := by
  intro l
  induction l with
  | nil =>
    intro pool p' h
    rw [AddAll] at h
    cases Except.ok.inj h
    simp
  | cons f rest ih =>
    intro pool p' h
    rw [AddAll] at h
    split at h
    · cases h
    next p1 hadd =>
      unfold PoolAdd at hadd
      split at hadd
      · split at hadd
        · cases hadd
        · cases Except.ok.inj hadd
          have := ih (pool ++ [f]) p' h
          rw [this]
          simp
      · cases hadd

/-- C9: the batch entry point has no partial-success mode: an error in the
add phase or in the build phase propagates out of the module-level
`GetMessages` unchanged, no mapping is returned, and conversely a returned
mapping implies the whole add phase succeeded (the final pool is the old
pool extended by the whole batch in `_AddFile` order). -/
theorem C9_no_partial_batch {env : Env} {protos : List FileDescriptorProto}
    {s : FactoryState} :
    (∀ msg, AddAll (addOrder protos) s.pool = .error msg →
      GetMessages env protos s = .error msg) ∧
    (∀ pool1 msg, AddAll (addOrder protos) s.pool = .ok pool1 →
      MessageFactory.GetMessages env theFactory
        (protos.map (fun fp => fp.name)) { s with pool := pool1 } = .error msg →
      GetMessages env protos s = .error msg) ∧
    (∀ res s', GetMessages env protos s = .ok (res, s') →
      ∃ pool1, AddAll (addOrder protos) s.pool = .ok pool1 ∧
        pool1 = s.pool ++ addOrder protos) := by
  refine ⟨?_, ?_, ?_⟩
  · intro msg h
    unfold GetMessages
    rw [h]
  · intro pool1 msg h1 h2
    unfold GetMessages
    rw [h1]
    exact h2
  · intro res s' h
    unfold GetMessages at h
    split at h
    · cases h
    next pool1 h1 => exact ⟨pool1, h1, AddAll_append _ _ _ h1⟩

/-- Witness for C9: a batch consisting of one file with an unsatisfied
dependency fails as a whole with the propagated pool error. -/
theorem C9_witness :
    GetMessages envM1M2 [fileCycA] (initState envM1M2) =
      .error "unknown dependency" :=
  (@C9_no_partial_batch envM1M2 [fileCycA] (initState envM1M2)).1
    "unknown dependency"
    (by simp [addOrder, AddFileRun, fileByName, insertFile, popName, AddAll,
      PoolAdd, fileCycA, initState])

/-! The module-level singleton factory (claim C10). -/

/-- Values bound by the message loop are recorded in the final state's
`_concrete_class` attributes. -/
theorem BuildMessages_bindings {env : Env} {fac fuel : Nat} :
    ∀ (msgs : List Nat) (res : List (String × Nat)) s res' s', WF env s →
      MessageFactory.BuildMessages env fac fuel msgs res s = .ok (res', s') →
      ∀ n c, lookupKV res' n = some c →
        lookupKV res n = some c ∨
        ∃ (d : Nat) (desc : Descriptor), env.descs[d]? = some desc ∧
          desc.full_name = n ∧ concreteAt s' d = some c := by
  intro msgs
  induction msgs with
  | nil =>
    intro res s res' s' _ h n c hl
    rw [MessageFactory.BuildMessages] at h
    cases Except.ok.inj h
    exact Or.inl hl
  | cons d rest ih =>
    intro res s res' s' hwf h n c hl
    rw [MessageFactory.BuildMessages] at h
    split at h
    · cases h
    next desc hdesc =>
      split at h
      · cases h
      next c1 s1 hg1 =>
        have hc1 := GetPrototype_concrete hwf hg1
        have hle1 := GetPrototype_le hwf hg1
        have hwf1 := hwf.mono hle1
        have hle2 : StateLE fac s1 s' := BuildMessages_le rest _ s1 res' s' hwf1 h
        rcases ih _ s1 res' s' hwf1 h n c hl with h0 | h0
        · rw [lookupKV_insertKV] at h0
          by_cases hn : n = desc.full_name
          · rw [if_pos hn] at h0
            cases Option.some_inj.1 h0
            exact Or.inr ⟨d, desc, hdesc, hn.symm, hle2.conc d c hc1⟩
          · rw [if_neg hn] at h0
            exact Or.inl h0
        · exact Or.inr h0

/-- Values bound by the file loop are recorded in the final state's
`_concrete_class` attributes. -/
theorem GetMessagesLoop_bindings {env : Env} {fac fuel : Nat} :
    ∀ (files : List String) (res : List (String × Nat)) s res' s', WF env s →
      MessageFactory.GetMessagesLoop env fac fuel files res s = .ok (res', s') →
      ∀ n c, lookupKV res' n = some c →
        lookupKV res n = some c ∨
        ∃ (d : Nat) (desc : Descriptor), env.descs[d]? = some desc ∧
          desc.full_name = n ∧ concreteAt s' d = some c := by
  intro files
  induction files with
  | nil =>
    intro res s res' s' _ h n c hl
    rw [MessageFactory.GetMessagesLoop] at h
    cases Except.ok.inj h
    exact Or.inl hl
  | cons fn rest ih =>
    intro res s res' s' hwf h n c hl
    rw [MessageFactory.GetMessagesLoop] at h
    split at h
    · cases h
    next fd hfd =>
      split at h
      · cases h
      next res1 s1 hmsgs =>
        have hle1 := BuildMessages_le fd.message_type res s res1 s1 hwf hmsgs
        split at h
        · cases h
        next s2 hexts =>
          have hle2 : StateLE fac s1 s2 :=
            (buildMono fuel env fac).2.2.1 fd.extension s1 s2 (hwf.mono hle1) hexts
          have hwf2 := (hwf.mono hle1).mono hle2
          have hle3 : StateLE fac s2 s' := GetMessagesLoop_le rest res1 s2 res' s' hwf2 h
          rcases ih res1 s2 res' s' hwf2 h n c hl with h0 | h0
          · rcases BuildMessages_bindings fd.message_type res s res1 s1 hwf hmsgs n c h0
              with h1 | h1
            · exact Or.inl h1
            · obtain ⟨d, desc, hd, hn, hc⟩ := h1
              exact Or.inr ⟨d, desc, hd, hn,
                (StateLE.trans hle2 hle3).conc d c hc⟩
          · exact Or.inr h0

/-- The whole module-level `GetMessages` call, seen from the state whose pool
already holds the batch: it only extends the world, on behalf of the one
global factory. -/
theorem GetMessages_module_le {env : Env} {protos : List FileDescriptorProto}
    {s : FactoryState} {res : List (String × Nat)} {s' : FactoryState}
    (hwf : WF env s) (h : GetMessages env protos s = .ok (res, s')) :
    StateLE theFactory { s with pool := s.pool ++ addOrder protos } s' := by
  unfold GetMessages at h
  split at h
  · cases h
  next pool1 h1 =>
    have hp := AddAll_append _ _ _ h1
    subst hp
    unfold MessageFactory.GetMessages at h
    exact GetMessagesLoop_le _ [] _ res s' hwf h

/-- Module-level bindings: every name bound by the module-level `GetMessages`
is the full name of a descriptor whose `_concrete_class` attribute records
the bound class in the final state. -/
theorem GetMessages_module_bindings {env : Env} {protos : List FileDescriptorProto}
    {s : FactoryState} {res : List (String × Nat)} {s' : FactoryState}
    (hwf : WF env s) (h : GetMessages env protos s = .ok (res, s')) :
    ∀ n c, lookupKV res n = some c →
      ∃ (d : Nat) (desc : Descriptor), env.descs[d]? = some desc ∧
        desc.full_name = n ∧ concreteAt s' d = some c := by
  unfold GetMessages at h
  split at h
  · cases h
  next pool1 h1 =>
    intro n c hl
    unfold MessageFactory.GetMessages at h
    rcases GetMessagesLoop_bindings _ [] { s with pool := pool1 } res s' hwf h n c hl
      with h0 | h0
    · cases h0
    · exact h0

/-- Descriptor indices are determined by unique full names. -/
theorem descIndex_unique {env : Env}
    (hnodup : (env.descs.map (fun d => d.full_name)).Nodup)
    {i j : Nat} {a b : Descriptor} (hi : env.descs[i]? = some a)
    (hj : env.descs[j]? = some b) (hab : a.full_name = b.full_name) : i = j := by
  have hmi : (env.descs.map (fun d => d.full_name))[i]? = some a.full_name := by
    rw [List.getElem?_map, hi]
    rfl
  have hmj : (env.descs.map (fun d => d.full_name))[j]? = some b.full_name := by
    rw [List.getElem?_map, hj]
    rfl
  apply List.getElem?_inj (getElem?_some_lt hmi) hnodup
  rw [hmi, hmj, hab]

/-- C10: every module-level `GetMessages` call works on the one shared global
factory and pool: (1) files added by one call stay in the pool seen by the
next call (the pool only ever grows by each batch); (2) a name bound in one
call's mapping is bound to the same generated class in any later call's
mapping (the descriptor was built once, globally); (3) every class created
by a call is tagged with the module-level factory — no per-call factory
exists. -/
theorem C10_shared_global_factory {env : Env}
    (hnodup : (env.descs.map (fun d => d.full_name)).Nodup) :
    ∀ (b1 b2 : List FileDescriptorProto) (s : FactoryState)
      (res1 : List (String × Nat)) (s1 : FactoryState)
      (res2 : List (String × Nat)) (s2 : FactoryState),
      WF env s →
      GetMessages env b1 s = .ok (res1, s1) →
      GetMessages env b2 s1 = .ok (res2, s2) →
      (s1.pool = s.pool ++ addOrder b1 ∧
        s2.pool = (s.pool ++ addOrder b1) ++ addOrder b2) ∧
      (∀ n c1 c2, lookupKV res1 n = some c1 → lookupKV res2 n = some c2 →
        c1 = c2) ∧
      (∀ c gc, s.classes.length ≤ c → s1.classes[c]? = some gc →
        gc.FACTORY = some theFactory) := by
  intro b1 b2 s res1 s1 res2 s2 hwf h1 h2
  have hle1 := GetMessages_module_le hwf h1
  have hwf1 : WF env s1 := by
    unfold WF at *
    rw [hle1.clen]
    exact hwf
  have hle2 := GetMessages_module_le hwf1 h2
  have hpool1 : s1.pool = s.pool ++ addOrder b1 := hle1.pool
  refine ⟨⟨hpool1, ?_⟩, ?_, ?_⟩
  · rw [hle2.pool, hpool1]
  · intro n c1 c2 hl1 hl2
    obtain ⟨d1, desc1, hd1, hn1, hc1⟩ := GetMessages_module_bindings hwf h1 n c1 hl1
    obtain ⟨d2, desc2, hd2, hn2, hc2⟩ := GetMessages_module_bindings hwf1 h2 n c2 hl2
    have hdd : d1 = d2 := descIndex_unique hnodup hd1 hd2 (hn1.trans hn2.symm)
    subst hdd
    have hc1' : concreteAt s2 d1 = some c1 := hle2.conc d1 c1 hc1
    rw [hc1'] at hc2
    exact Option.some_inj.1 hc2
  · intro c gc hle hg
    exact hle1.fresh c gc hle hg

/-- Witness for C10: register `F2` in one call, then `F1` (which depends on
`F2`) in a second call from the state the first call returned. -/
theorem C10_witness :
    ({ pool := [fileF2], concrete := [none, some 0],
       classes := [{ DESCRIPTOR := 1, FACTORY := some 0, registered := [] }] }
      : FactoryState).pool = [] ++ addOrder [fileF2] ∧
    ({ pool := [fileF2, fileF1], concrete := [some 1, some 0],
       classes := [{ DESCRIPTOR := 1, FACTORY := some 0, registered := [] },
                   { DESCRIPTOR := 0, FACTORY := some 0, registered := [] }] }
      : FactoryState).pool = ([] ++ addOrder [fileF2]) ++ addOrder [fileF1] := by
  have h := @C10_shared_global_factory envM1M2 (by decide)
    [fileF2] [fileF1] (initState envM1M2)
    [("pkg.M2", 0)]
    { pool := [fileF2], concrete := [none, some 0],
      classes := [{ DESCRIPTOR := 1, FACTORY := some 0, registered := [] }] }
    [("pkg.M1", 1)]
    { pool := [fileF2, fileF1], concrete := [some 1, some 0],
      classes := [{ DESCRIPTOR := 1, FACTORY := some 0, registered := [] },
                  { DESCRIPTOR := 0, FACTORY := some 0, registered := [] }] }
    (by simp [WF, initState, envM1M2])
    (by simp [GetMessages, MessageFactory.GetMessages, MessageFactory.GetMessagesLoop,
      MessageFactory.BuildMessages, MessageFactory.GetPrototype,
      MessageFactory.CreatePrototype, MessageFactory.BuildFields,
      MessageFactory.BuildExtensions, FindFileByName, defaultFuel, allocClass,
      insertKV, AddAll, PoolAdd, addOrder, AddFileRun, fileByName, insertFile,
      popName, theFactory, envM1M2, fileF1, fileF2, concreteAt, initState])
    (by simp [GetMessages, MessageFactory.GetMessages, MessageFactory.GetMessagesLoop,
      MessageFactory.BuildMessages, MessageFactory.GetPrototype,
      MessageFactory.CreatePrototype, MessageFactory.BuildFields,
      MessageFactory.BuildExtensions, FindFileByName, defaultFuel, allocClass,
      insertKV, AddAll, PoolAdd, addOrder, AddFileRun, fileByName, insertFile,
      popName, theFactory, envM1M2, fileF1, fileF2, concreteAt, initState])
  exact h.1

/-! The dependency resolver (`_AddFile`, claim C3). -/

/-- Unfolding: empty pending dict and empty stack. -/
theorem AddFileRun_nil_nil : AddFileRun [] [] = [] := by
  rw [AddFileRun]

/-- Unfolding: `popitem` on the pending dict starts an `_AddFile` frame. -/
theorem AddFileRun_popitem (g : FileDescriptorProto)
    (rest : List FileDescriptorProto) :
    AddFileRun (g :: rest) [] = AddFileRun rest [(g.dependency, g)] := by
  rw [AddFileRun]

/-- Unfolding: an exhausted frame performs `pool.Add`. -/
theorem AddFileRun_add (pending : List FileDescriptorProto)
    (f : FileDescriptorProto) (ps : List (List String × FileDescriptorProto)) :
    AddFileRun pending (([], f) :: ps) = f :: AddFileRun pending ps := by
  rw [AddFileRun]

/-- Unfolding: a dependency not in the pending dict is skipped. -/
theorem AddFileRun_dep_none {dn : String} {pending : List FileDescriptorProto}
    (ds : List String) (f : FileDescriptorProto)
    (ps : List (List String × FileDescriptorProto))
    (h : popName dn pending = none) :
    AddFileRun pending ((dn :: ds, f) :: ps) = AddFileRun pending ((ds, f) :: ps) := by
  rw [AddFileRun, h]

/-- Unfolding: a pending dependency is popped and recursed into. -/
theorem AddFileRun_dep_some {dn : String} {pending : List FileDescriptorProto}
    {g : FileDescriptorProto} {pending' : List FileDescriptorProto}
    (ds : List String) (f : FileDescriptorProto)
    (ps : List (List String × FileDescriptorProto))
    (h : popName dn pending = some (g, pending')) :
    AddFileRun pending ((dn :: ds, f) :: ps) =
      AddFileRun pending' ((g.dependency, g) :: (ds, f) :: ps) := by
  rw [AddFileRun, h]

/-- What a successful `popName` means: the popped entry carries the key and
the dict was a permutation of the entry and the rest. -/
theorem popName_some_spec (d : String) :
    ∀ (l : List FileDescriptorProto) (g : FileDescriptorProto)
      (l' : List FileDescriptorProto), popName d l = some (g, l') →
      g.name = d ∧ l.Perm (g :: l') := by
  intro l
  induction l with
  | nil => intro g l' h; simp [popName] at h
  | cons x rest ih =>
    intro g l' h
    simp only [popName] at h
    by_cases hx : x.name = d
    · rw [if_pos hx] at h
      injection h with h'
      have h1 : x = g := congrArg Prod.fst h'
      have h2 : rest = l' := congrArg Prod.snd h'
      subst h1
      subst h2
      exact ⟨hx, List.Perm.refl _⟩
    · rw [if_neg hx] at h
      cases hmap : popName d rest with
      | none => rw [hmap] at h; cases h
      | some p =>
        rw [hmap] at h
        simp only [Option.map_some'] at h
        injection h with h'
        have h1 : p.1 = g := congrArg Prod.fst h'
        have h2 : x :: p.2 = l' := congrArg Prod.snd h'
        obtain ⟨hname, hperm⟩ := ih p.1 p.2 hmap
        subst h1
        rw [← h2]
        exact ⟨hname, (hperm.cons x).trans (List.Perm.swap p.1 x p.2)⟩

/-- A failing `popName` means no entry carries the key. -/
theorem popName_none_spec (d : String) :
    ∀ l : List FileDescriptorProto, popName d l = none → d ∉ fileNames l := by
  intro l
  induction l with
  | nil => intro _; simp [fileNames]
  | cons x rest ih =>
    intro h
    simp only [popName] at h
    by_cases hx : x.name = d
    · rw [if_pos hx] at h; cases h
    · rw [if_neg hx] at h
      cases hmap : popName d rest with
      | none =>
        have := ih hmap
        simp only [fileNames, List.map_cons, List.mem_cons]
        rintro (h1 | h1)
        · exact hx h1.symm
        · exact this (by simpa [fileNames] using h1)
      | some p => rw [hmap] at h; cases h

/-- The machine emits exactly the pending files and the stacked frames'
files, in some order: every file is passed to `pool.Add` exactly once. -/
theorem AddFileRun_perm :
    ∀ (pending : List FileDescriptorProto)
      (stack : List (List String × FileDescriptorProto)),
      (AddFileRun pending stack).Perm
        (pending ++ stack.map (fun p => p.2)) := by
  intro pending stack
  induction pending, stack using AddFileRun.induct with
  | case1 => rw [AddFileRun_nil_nil]; exact List.Perm.refl _
  | case2 g rest ih =>
    rw [AddFileRun_popitem]
    refine ih.trans ?_
    simp only [List.map_cons, List.map_nil, List.append_nil]
    exact List.perm_append_singleton g rest
  | case3 pending f ps ih =>
    rw [AddFileRun_add]
    refine (ih.cons f).trans ?_
    simp only [List.map_cons]
    exact (List.perm_middle).symm
  | case4 pending dn ds f ps hpop ih =>
    rw [AddFileRun_dep_none ds f ps hpop]
    simpa using ih
  | case5 pending dn ds f ps g pending' hpop ih =>
    rw [AddFileRun_dep_some ds f ps hpop]
    refine ih.trans ?_
    obtain ⟨-, hperm⟩ := popName_some_spec dn pending g pending' hpop
    simp only [List.map_cons]
    exact List.perm_middle.trans (hperm.symm.append_right _)

/-- Inserting a fresh name into the `file_by_name` dict appends it. -/
theorem insertFile_not_mem :
    ∀ (m : List FileDescriptorProto) (f : FileDescriptorProto),
      f.name ∉ fileNames m → insertFile m f = m ++ [f] := by
  intro m
  induction m with
  | nil => intro f _; simp [insertFile]
  | cons g rest ih =>
    intro f hf
    have hg : ¬ g.name = f.name := by
      intro he
      exact hf (by simp [fileNames, he])
    simp only [insertFile, if_neg hg, List.cons_append]
    rw [ih f (fun hmem => hf (by simp [fileNames] at hmem ⊢; exact Or.inr hmem))]

/-- Folding dict insertion over files with fresh names just appends them. -/
theorem foldl_insertFile :
    ∀ (protos acc : List FileDescriptorProto),
      (fileNames (acc ++ protos)).Nodup →
      protos.foldl insertFile acc = acc ++ protos := by
  intro protos
  induction protos with
  | nil => intro acc _; simp
  | cons f rest ih =>
    intro acc hnd
    have hsplit : fileNames (acc ++ f :: rest) =
        fileNames acc ++ f.name :: fileNames rest := by
      simp [fileNames]
    rw [hsplit] at hnd
    have hdisj := (List.nodup_append.mp hnd).2.2
    have hfacc : f.name ∉ fileNames acc := by
      intro hmem
      exact hdisj hmem (List.mem_cons_self _ _)
    have h1 : insertFile acc f = acc ++ [f] := insertFile_not_mem acc f hfacc
    have h2 : (fileNames ((acc ++ [f]) ++ rest)).Nodup := by
      rw [List.append_assoc]
      simpa [fileNames] using hnd
    calc (f :: rest).foldl insertFile acc
        = rest.foldl insertFile (insertFile acc f) := rfl
    _ = rest.foldl insertFile (acc ++ [f]) := by rw [h1]
    _ = (acc ++ [f]) ++ rest := ih (acc ++ [f]) h2
    _ = acc ++ f :: rest := by simp

/-- With pairwise distinct file names the dict keeps the batch as given. -/
theorem fileByName_eq_self (protos : List FileDescriptorProto)
    (h : (fileNames protos).Nodup) : fileByName protos = protos := by
  have := foldl_insertFile protos [] (by simpa using h)
  simpa [fileByName] using this

/-- Weakening the frame-stack invariant: enlarging the added set and the
set of frames above preserves it. -/
theorem FramesOK_mono (N : List String) :
    ∀ (ps : List (List String × FileDescriptorProto))
      (D D' above above' : List String),
      (∀ x ∈ D, x ∈ D') → (∀ x ∈ above, x ∈ D' ∨ x ∈ above') →
      FramesOK N D above ps → FramesOK N D' above' ps := by
  intro ps
  induction ps with
  | nil => intro D D' above above' _ _ _; trivial
  | cons p ps ih =>
    obtain ⟨ds, f⟩ := p
    intro D D' above above' hD habove hok
    simp only [FramesOK] at hok ⊢
    obtain ⟨⟨pre, hpre, hdep⟩, hrest⟩ := hok
    refine ⟨⟨pre, hpre, ?_⟩, ?_⟩
    · intro dn hdn hdnN
      rcases hdep dn hdn hdnN with h | h
      · exact Or.inl (hD _ h)
      · exact habove _ h
    · refine ih D D' (f.name :: above) (f.name :: above') hD ?_ hrest
      intro x hx
      rcases List.mem_cons.mp hx with rfl | hx
      · exact Or.inr (List.mem_cons_self _ _)
      · rcases habove x hx with h | h
        · exact Or.inl h
        · exact Or.inr (List.mem_cons_of_mem _ h)

/-- Core ordering property of the `_AddFile` machine under a rank function
that certifies acyclicity of the in-batch dependency graph: every emitted
file has each of its in-batch dependencies either in the already-added set
`D` or emitted earlier in the run. -/
theorem AddFileRun_ordered (B : List FileDescriptorProto) (rank : String → Nat)
    (hrank : ∀ f ∈ B, ∀ dn ∈ f.dependency, dn ∈ fileNames B →
      rank dn < rank f.name) :
    ∀ (pending : List FileDescriptorProto)
      (ps : List (List String × FileDescriptorProto)) (D : List String),
      (∀ g ∈ pending, g ∈ B) →
      (∀ p ∈ ps, p.2 ∈ B) →
      (∀ dn ∈ fileNames B, dn ∈ D ∨ dn ∈ fileNames pending ∨
        dn ∈ fileNames (ps.map (fun p => p.2))) →
      FramesOK (fileNames B) D [] ps →
      List.Pairwise (fun p q => rank p.2.name < rank q.2.name) ps →
      ∀ xs f ys, AddFileRun pending ps = xs ++ f :: ys →
        ∀ dn ∈ f.dependency, dn ∈ fileNames B → dn ∈ D ∨ dn ∈ fileNames xs := by
  intro pending ps
  induction pending, ps using AddFileRun.induct with
  | case1 =>
    intro D _ _ _ _ _ xs f ys heq
    rw [AddFileRun_nil_nil] at heq
    exact absurd heq.symm (by simp)
  | case2 g rest ih =>
    intro D hpend hfr hcov hok hpw xs f ys heq
    rw [AddFileRun_popitem] at heq
    refine ih D ?_ ?_ ?_ ?_ ?_ xs f ys heq
    · intro g' hg'; exact hpend g' (List.mem_cons_of_mem _ hg')
    · intro p hp
      rcases List.mem_singleton.mp hp with rfl
      exact hpend g (List.mem_cons_self _ _)
    · intro dn hdn
      rcases hcov dn hdn with h | h | h
      · exact Or.inl h
      · simp only [fileNames, List.map_cons, List.mem_cons] at h
        rcases h with h | h
        · refine Or.inr (Or.inr ?_)
          simp only [fileNames, List.map_cons, List.map_nil, List.mem_cons]
          exact Or.inl h
        · exact Or.inr (Or.inl h)
      · exact absurd h (by simp [fileNames])
    · simp only [FramesOK]
      exact ⟨⟨[], by simp, by simp⟩, trivial⟩
    · exact List.pairwise_singleton _ _
  | case3 pending f ps ih =>
    intro D hpend hfr hcov hok hpw xs f0 ys heq
    rw [AddFileRun_add] at heq
    simp only [FramesOK] at hok
    obtain ⟨⟨pre, hpre, hdep⟩, hok'⟩ := hok
    rw [List.append_nil] at hpre
    cases xs with
    | nil =>
      simp only [List.nil_append] at heq
      injection heq with h1 h2
      subst h1
      intro dn hdn hdnN
      left
      have hdn' : dn ∈ pre := by rw [← hpre]; exact hdn
      rcases hdep dn hdn' hdnN with h | h
      · exact h
      · exact absurd h (List.not_mem_nil dn)
    | cons x xs' =>
      simp only [List.cons_append] at heq
      injection heq with h1 h2
      subst h1
      intro dn hdn hdnN
      have hfr' : ∀ p ∈ ps, p.2 ∈ B := fun p hp => hfr p (List.mem_cons_of_mem _ hp)
      have hcov' : ∀ dn' ∈ fileNames B, dn' ∈ (f.name :: D) ∨
          dn' ∈ fileNames pending ∨
          dn' ∈ fileNames (ps.map (fun p => p.2)) := by
        intro dn' hdn'B
        rcases hcov dn' hdn'B with h | h | h
        · exact Or.inl (List.mem_cons_of_mem _ h)
        · exact Or.inr (Or.inl h)
        · simp only [fileNames, List.map_cons, List.mem_cons] at h
          rcases h with h | h
          · exact Or.inl (by simp [h])
          · exact Or.inr (Or.inr h)
      have hok2 : FramesOK (fileNames B) (f.name :: D) [] ps := by
        refine FramesOK_mono (fileNames B) ps D (f.name :: D) [f.name] []
          (fun x hx => List.mem_cons_of_mem _ hx) ?_ hok'
        intro x hx
        rcases List.mem_singleton.mp hx with rfl
        exact Or.inl (List.mem_cons_self _ _)
      have hres := ih (f.name :: D) hpend hfr' hcov' hok2
        (List.Pairwise.of_cons hpw) xs' f0 ys h2 dn hdn hdnN
      rcases hres with h | h
      · rcases List.mem_cons.mp h with rfl | h'
        · exact Or.inr (by simp [fileNames])
        · exact Or.inl h'
      · refine Or.inr ?_
        simp only [fileNames, List.map_cons, List.mem_cons]
        exact Or.inr h
  | case4 pending dn0 ds f ps hpop ih =>
    intro D hpend hfr hcov hok hpw xs f0 ys heq
    rw [AddFileRun_dep_none ds f ps hpop] at heq
    simp only [FramesOK] at hok
    obtain ⟨⟨pre, hpre, hdep⟩, hok'⟩ := hok
    have hfB : f ∈ B := hfr (dn0 :: ds, f) (List.mem_cons_self _ _)
    have hdn0f : dn0 ∈ f.dependency := by
      rw [hpre]
      exact List.mem_append_right _ (List.mem_cons_self _ _)
    have hpwold := List.pairwise_cons.mp hpw
    have hnew : dn0 ∈ fileNames B → dn0 ∈ D := by
      intro hdn0N
      have hrk : rank dn0 < rank f.name := hrank f hfB dn0 hdn0f hdn0N
      rcases hcov dn0 hdn0N with h | h | h
      · exact h
      · exact absurd h (popName_none_spec dn0 pending hpop)
      · exfalso
        simp only [fileNames, List.map_cons, List.mem_cons] at h
        rcases h with h | h
        · rw [h] at hrk; exact lt_irrefl _ hrk
        · obtain ⟨x, hx, hxname⟩ := List.mem_map.mp h
          obtain ⟨q, hq, rfl⟩ := List.mem_map.mp hx
          have hlt : rank f.name < rank q.2.name := hpwold.1 q hq
          rw [hxname] at hlt
          omega
    refine ih D hpend ?_ ?_ ?_ ?_ xs f0 ys heq
    · intro p hp
      rcases List.mem_cons.mp hp with rfl | hp
      · exact hfB
      · exact hfr p (List.mem_cons_of_mem _ hp)
    · intro dn hdnB
      rcases hcov dn hdnB with h | h | h
      · exact Or.inl h
      · exact Or.inr (Or.inl h)
      · exact Or.inr (Or.inr h)
    · simp only [FramesOK]
      refine ⟨⟨pre ++ [dn0], by rw [hpre]; simp, ?_⟩, hok'⟩
      intro x hx hxN
      rcases List.mem_append.mp hx with h | h
      · exact hdep x h hxN
      · rcases List.mem_singleton.mp h with rfl
        exact Or.inl (hnew hxN)
    · exact List.pairwise_cons.mpr ⟨hpwold.1, hpwold.2⟩
  | case5 pending dn0 ds f ps g pending' hpop ih =>
    intro D hpend hfr hcov hok hpw xs f0 ys heq
    rw [AddFileRun_dep_some ds f ps hpop] at heq
    obtain ⟨hgname, hperm⟩ := popName_some_spec dn0 pending g pending' hpop
    have hgmem : g ∈ pending := hperm.mem_iff.mpr (List.mem_cons_self _ _)
    have hgB : g ∈ B := hpend g hgmem
    have hfB : f ∈ B := hfr (dn0 :: ds, f) (List.mem_cons_self _ _)
    simp only [FramesOK] at hok
    obtain ⟨⟨pre, hpre, hdep⟩, hok'⟩ := hok
    have hdn0f : dn0 ∈ f.dependency := by
      rw [hpre]
      exact List.mem_append_right _ (List.mem_cons_self _ _)
    have hgN : g.name ∈ fileNames B := List.mem_map.mpr ⟨g, hgB, rfl⟩
    have hrkg : rank g.name < rank f.name := by
      rw [hgname]
      exact hrank f hfB dn0 hdn0f (by rw [← hgname]; exact hgN)
    have hpwold := List.pairwise_cons.mp hpw
    refine ih D ?_ ?_ ?_ ?_ ?_ xs f0 ys heq
    · intro g' hg'
      exact hpend g' (hperm.mem_iff.mpr (List.mem_cons_of_mem _ hg'))
    · intro p hp
      rcases List.mem_cons.mp hp with rfl | hp
      · exact hgB
      · rcases List.mem_cons.mp hp with rfl | hp
        · exact hfB
        · exact hfr p (List.mem_cons_of_mem _ hp)
    · intro dn hdnB
      rcases hcov dn hdnB with h | h | h
      · exact Or.inl h
      · have hmem : dn ∈ fileNames (g :: pending') :=
          (hperm.map (fun f => f.name)).mem_iff.mp h
        simp only [fileNames, List.map_cons, List.mem_cons] at hmem
        rcases hmem with h' | h'
        · refine Or.inr (Or.inr ?_)
          simp only [fileNames, List.map_cons, List.mem_cons]
          exact Or.inl h'
        · exact Or.inr (Or.inl h')
      · simp only [fileNames, List.map_cons, List.mem_cons] at h
        rcases h with h | h
        · refine Or.inr (Or.inr ?_)
          simp only [fileNames, List.map_cons, List.mem_cons]
          exact Or.inr (Or.inl h)
        · refine Or.inr (Or.inr ?_)
          simp only [fileNames, List.map_cons, List.mem_cons]
          exact Or.inr (Or.inr h)
    · simp only [FramesOK]
      refine ⟨⟨[], by simp, by simp⟩, ⟨pre ++ [dn0], by rw [hpre]; simp, ?_⟩, ?_⟩
      · intro x hx hxN
        rcases List.mem_append.mp hx with h | h
        · rcases hdep x h hxN with h' | h'
          · exact Or.inl h'
          · exact absurd h' (List.not_mem_nil x)
        · rcases List.mem_singleton.mp h with rfl
          exact Or.inr (by simp [hgname])
      · refine FramesOK_mono (fileNames B) ps D D [f.name] (f.name :: [g.name])
          (fun x hx => hx) ?_ hok'
        intro x hx
        rcases List.mem_singleton.mp hx with rfl
        exact Or.inr (List.mem_cons_self _ _)
    · refine List.pairwise_cons.mpr ⟨?_, ?_⟩
      · intro q hq
        rcases List.mem_cons.mp hq with rfl | hq
        · exact hrkg
        · exact lt_trans hrkg (hpwold.1 q hq)
      · exact List.pairwise_cons.mpr
          ⟨fun q hq => hpwold.1 q hq, hpwold.2⟩

/-- C3 counterexample: for the mutually dependent pair `cycA`/`cycB` the
module-level batch adds `cycA` to the pool before its in-batch dependency
`cycB` — cutting the cycle by `pop`-before-recursion makes the later file of
a cycle arrive first, so the claimed dependency-first order fails on cyclic
batches. -/
theorem C3_counterexample : ¬ DepsFirst [fileCycA, fileCycB] := by
  intro h
  have h1 : fileByName [fileCycA, fileCycB] = [fileCycA, fileCycB] := by decide
  have hrev : [fileCycA, fileCycB].reverse = [fileCycB, fileCycA] := by decide
  have hdepB : fileCycB.dependency = ["cycA"] := rfl
  have hdepA : fileCycA.dependency = ["cycB"] := rfl
  have hpop1 : popName "cycA" [fileCycA] = some (fileCycA, []) := by decide
  have hpop2 : popName "cycB" ([] : List FileDescriptorProto) = none := rfl
  have hord : addOrder [fileCycA, fileCycB] = [] ++ fileCycA :: [fileCycB] := by
    unfold addOrder
    rw [h1, hrev, AddFileRun_popitem, hdepB,
      AddFileRun_dep_some [] fileCycB [] hpop1, hdepA,
      AddFileRun_dep_none [] fileCycA [([], fileCycB)] hpop2,
      AddFileRun_add, AddFileRun_add, AddFileRun_nil_nil]
    rfl
  have := h [] fileCycA [fileCycB] hord "cycB" (by decide) (by decide)
  simp [fileNames] at this

/-- C3 (amended): the module-level `GetMessages` hands each file of the
batch to `pool.Add` exactly once (the add order is a permutation of any
batch with pairwise distinct file names), and whenever the in-batch
dependency graph is acyclic — witnessed by a rank function that strictly
decreases from a file to its in-batch dependencies — every file is added
only after all of its dependencies that occur in the same batch.  On
batches with dependency cycles the second part fails
(`C3_counterexample`). -/
theorem C3_addOrder_perm_depsFirst (batch : List FileDescriptorProto)
    (rank : String → Nat)
    (hnd : (fileNames batch).Nodup)
    (hrank : ∀ f ∈ batch, ∀ dn ∈ f.dependency, dn ∈ fileNames batch →
      rank dn < rank f.name) :
    (addOrder batch).Perm batch ∧ DepsFirst batch := by
  have hfbn : fileByName batch = batch := fileByName_eq_self batch hnd
  constructor
  · unfold addOrder
    rw [hfbn]
    refine (AddFileRun_perm batch.reverse []).trans ?_
    simp
  · intro xs f ys heq dn hdn hdnN
    have hord : AddFileRun (fileByName batch).reverse [] = xs ++ f :: ys := heq
    rw [hfbn] at hord
    have hres := AddFileRun_ordered batch rank hrank batch.reverse [] []
      (fun g hg => List.mem_reverse.mp hg)
      (fun p hp => absurd hp (List.not_mem_nil p))
      (fun dn' hdn' => Or.inr (Or.inl (by
        simp only [fileNames, List.map_reverse, List.mem_reverse]
        simpa [fileNames] using hdn')))
      trivial
      (List.Pairwise.nil)
      xs f ys hord dn hdn hdnN
    rcases hres with h | h
    · exact absurd h (List.not_mem_nil dn)
    · exact h

/-- C3 witness: the two-file batch `F1` (depending on `F2`) and `F2` has
distinct names and an acyclic dependency graph ranked by `F2 before F1`;
the claim theorem applies and yields the permutation and ordering facts. -/
theorem C3_witness :
    (addOrder [fileF1, fileF2]).Perm [fileF1, fileF2] ∧
    DepsFirst [fileF1, fileF2] :=
  C3_addOrder_perm_depsFirst [fileF1, fileF2]
    (fun n => if n = "F2" then 0 else 1) (by decide) (by decide)

/-! Order independence of the module-level batch (claim C7). -/

/-- Any batch with pairwise distinct file names reaches `pool.Add` as a
permutation of itself. -/
theorem addOrder_perm_batch (batch : List FileDescriptorProto)
    (hnd : (fileNames batch).Nodup) : (addOrder batch).Perm batch := by
  unfold addOrder
  rw [fileByName_eq_self batch hnd]
  refine (AddFileRun_perm batch.reverse []).trans ?_
  simp

/-- Successful pool insertion preserves distinctness of file names (a
duplicate name is rejected with an error). -/
theorem AddAll_nodup :
    ∀ (files pool p : List FileDescriptorProto), (fileNames pool).Nodup →
      AddAll files pool = .ok p → (fileNames p).Nodup := by
  intro files
  induction files with
  | nil =>
    intro pool p hnd h
    rw [AddAll] at h
    cases Except.ok.inj h
    exact hnd
  | cons f rest ih =>
    intro pool p hnd h
    rw [AddAll] at h
    split at h
    · cases h
    next p1 hadd =>
      unfold PoolAdd at hadd
      split at hadd
      · split at hadd
        · cases hadd
        next hdup =>
          cases Except.ok.inj hadd
          refine ih _ p ?_ h
          have hf : f.name ∉ fileNames pool := by
            intro hmem
            apply hdup
            simp only [fileNames, List.mem_map] at hmem
            obtain ⟨g, hg, hgname⟩ := hmem
            exact List.any_eq_true.mpr ⟨g, hg, by simp [hgname]⟩
          simp only [fileNames, List.map_append, List.map_cons, List.map_nil]
          rw [List.nodup_append]
          refine ⟨hnd, List.nodup_singleton _, ?_⟩
          intro x hx hmem
          rcases List.mem_singleton.mp hmem with rfl
          exact hf hx
      · cases hadd

/-- File lookup by name agrees on permuted pools with distinct file names. -/
theorem findFile_perm {pool pool' : List FileDescriptorProto}
    (hperm : pool.Perm pool') (hnd : (fileNames pool).Nodup) (n : String) :
    FindFileByName pool n = FindFileByName pool' n := by
  have hnd' : (pool.map (fun f => f.name)).Nodup := hnd
  have hinj := List.inj_on_of_nodup_map hnd'
  unfold FindFileByName
  cases h1 : pool.find? (fun g => g.name == n) with
  | none =>
    cases h2 : pool'.find? (fun g => g.name == n) with
    | none => rfl
    | some f =>
      have hf := List.find?_some h2
      have hfmem := hperm.mem_iff.mpr (List.mem_of_find?_eq_some h2)
      exact absurd hf (List.find?_eq_none.mp h1 f hfmem)
  | some f =>
    have hf := List.find?_some h1
    have hfmem := List.mem_of_find?_eq_some h1
    cases h2 : pool'.find? (fun g => g.name == n) with
    | none =>
      exact absurd hf (List.find?_eq_none.mp h2 f (hperm.mem_iff.mp hfmem))
    | some f' =>
      have hf' := List.find?_some h2
      have hf'mem := hperm.mem_iff.mpr (List.mem_of_find?_eq_some h2)
      have heq : f = f' := by
        have he1 : f.name = n := by simpa using hf
        have he2 : f'.name = n := by simpa using hf'
        exact hinj hfmem hf'mem (he1.trans he2.symm)
      rw [heq]

/-- Membership in the requested files' top-level names is invariant under
permuting the pool (with distinct file names) and the requested list. -/
theorem topLevelNames_mem {env : Env} {pool pool' : List FileDescriptorProto}
    {files files' : List String} (hperm : pool.Perm pool')
    (hnd : (fileNames pool).Nodup) (hfiles : files.Perm files') (n : String) :
    n ∈ topLevelNames env pool files ↔ n ∈ topLevelNames env pool' files' := by
  unfold topLevelNames
  simp only [List.mem_flatMap]
  constructor
  · rintro ⟨fn, hfn, hmem⟩
    refine ⟨fn, hfiles.mem_iff.mp hfn, ?_⟩
    rw [← findFile_perm hperm hnd fn]
    exact hmem
  · rintro ⟨fn, hfn, hmem⟩
    refine ⟨fn, hfiles.mem_iff.mpr hfn, ?_⟩
    rw [findFile_perm hperm hnd fn]
    exact hmem

/-- C7: the module-level `GetMessages` is order-independent.  Two successful
runs on permuted batches from the same start state (distinct descriptor full
names, distinct file names in the pool and the batch) produce the same pool
up to permutation, mappings with the same key set, and bind every common key
to the class generated for the same descriptor (class identity across
alternative runs is represented by the descriptor the class is bound to,
since the numeric heap ids — like Python object identities of two separate
runs — are allocation-order artifacts). -/
theorem C7_order_independence {env : Env}
    (hnodupD : (env.descs.map (fun d => d.full_name)).Nodup) :
    ∀ (b1 b2 : List FileDescriptorProto) (s : FactoryState)
      (res1 : List (String × Nat)) (s1 : FactoryState)
      (res2 : List (String × Nat)) (s2 : FactoryState),
      WF env s →
      (fileNames s.pool).Nodup →
      (fileNames b1).Nodup →
      b1.Perm b2 →
      GetMessages env b1 s = .ok (res1, s1) →
      GetMessages env b2 s = .ok (res2, s2) →
      s1.pool.Perm s2.pool ∧
      (∀ n, (lookupKV res1 n).isSome = true ↔ (lookupKV res2 n).isSome = true) ∧
      (∀ n c1 c2, lookupKV res1 n = some c1 → lookupKV res2 n = some c2 →
        ∃ (d : Nat) (desc : Descriptor), env.descs[d]? = some desc ∧
          desc.full_name = n ∧ concreteAt s1 d = some c1 ∧
          concreteAt s2 d = some c2) := by
  intro b1 b2 s res1 s1 res2 s2 hwf hndpool hnd1 hperm h1 h2
  have horig1 := h1
  have horig2 := h2
  have hnd2 : (fileNames b2).Nodup :=
    (hperm.map (fun f : FileDescriptorProto => f.name)).nodup_iff.mp hnd1
  have haop : (addOrder b1).Perm (addOrder b2) :=
    ((addOrder_perm_batch b1 hnd1).trans hperm).trans
      (addOrder_perm_batch b2 hnd2).symm
  unfold GetMessages at h1 h2
  split at h1
  · cases h1
  next p1 hadd1 =>
    split at h2
    · cases h2
    next p2 hadd2 =>
      have hp1 : p1 = s.pool ++ addOrder b1 := AddAll_append _ _ _ hadd1
      have hp2 : p2 = s.pool ++ addOrder b2 := AddAll_append _ _ _ hadd2
      have hp1p2 : p1.Perm p2 := by
        rw [hp1, hp2]
        exact haop.append_left s.pool
      have hndp1 : (fileNames p1).Nodup := AddAll_nodup _ s.pool p1 hndpool hadd1
      have hwf1 : WF env { s with pool := p1 } := hwf
      have hwf2 : WF env { s with pool := p2 } := hwf
      unfold MessageFactory.GetMessages at h1 h2
      have hk1 := GetMessagesLoop_keys (b1.map (fun fp => fp.name)) []
        { s with pool := p1 } res1 s1 hwf1 h1
      have hk2 := GetMessagesLoop_keys (b2.map (fun fp => fp.name)) []
        { s with pool := p2 } res2 s2 hwf2 h2
      refine ⟨?_, ?_, ?_⟩
      · have hle1 := GetMessagesLoop_le (b1.map (fun fp => fp.name)) []
          { s with pool := p1 } res1 s1 hwf1 h1
        have hle2 := GetMessagesLoop_le (b2.map (fun fp => fp.name)) []
          { s with pool := p2 } res2 s2 hwf2 h2
        rw [hle1.pool, hle2.pool]
        exact hp1p2
      · intro n
        rw [hk1 n, hk2 n]
        have h0 : (lookupKV [] n).isSome = false := rfl
        simp only [h0, Bool.false_eq_true, false_or]
        exact topLevelNames_mem hp1p2 hndp1 (hperm.map (fun fp => fp.name)) n
      · intro n c1 c2 hl1 hl2
        obtain ⟨d1, desc1, hd1, hn1, hc1⟩ :=
          GetMessages_module_bindings hwf horig1 n c1 hl1
        obtain ⟨d2, desc2, hd2, hn2, hc2⟩ :=
          GetMessages_module_bindings hwf horig2 n c2 hl2
        have hdd : d1 = d2 := descIndex_unique hnodupD hd1 hd2 (hn1.trans hn2.symm)
        subst hdd
        exact ⟨d1, desc1, hd1, hn1, hc1, hc2⟩

/-- C7 witness: the batch `[F1, F2]` and its permutation `[F2, F1]`, run from
the empty initial world, produce a permuted pool, the same key set, and bind
`pkg.M1`/`pkg.M2` to the classes of the same descriptors (heap ids differ:
`pkg.M1` is class 0 in one run and class 1 in the other). -/
theorem C7_witness :
    stateFwd.pool.Perm stateRev.pool ∧
    (∀ n, (lookupKV mapFwd n).isSome = true ↔ (lookupKV mapRev n).isSome = true) ∧
    (∀ n c1 c2, lookupKV mapFwd n = some c1 → lookupKV mapRev n = some c2 →
      ∃ (d : Nat) (desc : Descriptor), envM1M2.descs[d]? = some desc ∧
        desc.full_name = n ∧ concreteAt stateFwd d = some c1 ∧
        concreteAt stateRev d = some c2) :=
  @C7_order_independence envM1M2 (by decide) [fileF1, fileF2] [fileF2, fileF1]
    (initState envM1M2) mapFwd stateFwd mapRev stateRev
    (by simp [WF, initState, envM1M2])
    (by decide) (by decide) (by decide)
    (by simp [GetMessages, MessageFactory.GetMessages, MessageFactory.GetMessagesLoop,
      MessageFactory.BuildMessages, MessageFactory.GetPrototype,
      MessageFactory.CreatePrototype, MessageFactory.BuildFields,
      MessageFactory.BuildExtensions, FindFileByName, defaultFuel, allocClass,
      insertKV, AddAll, PoolAdd, addOrder, AddFileRun, fileByName, insertFile,
      popName, theFactory, envM1M2, fileF1, fileF2, concreteAt, initState,
      mapFwd, stateFwd])
    (by simp [GetMessages, MessageFactory.GetMessages, MessageFactory.GetMessagesLoop,
      MessageFactory.BuildMessages, MessageFactory.GetPrototype,
      MessageFactory.CreatePrototype, MessageFactory.BuildFields,
      MessageFactory.BuildExtensions, FindFileByName, defaultFuel, allocClass,
      insertKV, AddAll, PoolAdd, addOrder, AddFileRun, fileByName, insertFile,
      popName, theFactory, envM1M2, fileF1, fileF2, concreteAt, initState,
      mapRev, stateRev])
